import Mathlib

/-!
Verification of the splitwise/YNAB synchronisation program.

This file gives a shallow embedding of the program's core logic
(`src/utils.py`, `src/sw.py`, `src/main.py`) and proves properties about it.

Modelling conventions:
* Python strings are Lean `String`s; byte-level operations go through an
  explicit UTF-8 encoder.
* Python `Optional` values and possibly-missing dictionary keys are `Option`s;
  Python truthiness of such values is made explicit (`pyTruthyOptStr`, ...).
* Monetary values that the program holds as Python floats are modelled as
  rationals (`ℚ`); `int(x)` is truncation toward zero and `round(x, 2)` is
  round-half-to-even, both on exact rationals.
* External I/O (the Splitwise and YNAB HTTP clients) is parameterised away:
  what a call would return is an input of the embedded function, and the
  write calls a pass would issue are collected in its output.
-/

-- Concrete end-to-end evaluations (which hash every tag with MD5) reduce deeply.
set_option maxRecDepth 200000

-- Rational arithmetic is sealed in the library; reopen it so that concrete
-- monetary computations evaluate definitionally (e.g. under `decide`).
attribute [local semireducible] Rat.add Rat.sub Rat.mul Rat.inv Rat.ofScientific

/-! ## Python truthiness helpers -/

/-- Python truthiness of an `Optional[str]`: `None` and `""` are falsy. -/
def pyTruthyOptStr : Option String → Bool
  | none => false
  | some s => s != ""

/-- Python truthiness of an `Optional[int]`: `None` and `0` are falsy. -/
def pyTruthyOptNat : Option Nat → Bool
  | none => false
  | some n => n != 0

/-! ## MD5 (the `hashlib.md5(...).hexdigest()` call in `src/utils.py`)

A direct executable model of MD5 over a list of bytes (`Nat`s below 256),
with the standard round constants and per-round shift amounts. -/

/-- 32-bit left rotation. -/
def rotl32 (x n : Nat) : Nat :=
  ((x <<< n) ||| (x >>> (32 - n))) % 4294967296

/-- MD5 round constants `K[i] = floor(2^32 * |sin(i+1)|)`. -/
def md5K : List Nat :=
  [3614090360, 3905402710, 606105819, 3250441966, 4118548399, 1200080426, 2821735955, 4249261313,
   1770035416, 2336552879, 4294925233, 2304563134, 1804603682, 4254626195, 2792965006, 1236535329,
   4129170786, 3225465664, 643717713, 3921069994, 3593408605, 38016083, 3634488961, 3889429448,
   568446438, 3275163606, 4107603335, 1163531501, 2850285829, 4243563512, 1735328473, 2368359562,
   4294588738, 2272392833, 1839030562, 4259657740, 2763975236, 1272893353, 4139469664, 3200236656,
   681279174, 3936430074, 3572445317, 76029189, 3654602809, 3873151461, 530742520, 3299628645,
   4096336452, 1126891415, 2878612391, 4237533241, 1700485571, 2399980690, 4293915773, 2240044497,
   1873313359, 4264355552, 2734768916, 1309151649, 4149444226, 3174756917, 718787259, 3951481745]

/-- MD5 per-round left-rotation amounts. -/
def md5S : List Nat :=
  [7,12,17,22,7,12,17,22,7,12,17,22,7,12,17,22,
   5,9,14,20,5,9,14,20,5,9,14,20,5,9,14,20,
   4,11,16,23,4,11,16,23,4,11,16,23,4,11,16,23,
   6,10,15,21,6,10,15,21,6,10,15,21,6,10,15,21]

/-- MD5 nonlinear mixing function for round `i`. -/
def md5F (i b c d : Nat) : Nat :=
  if i < 16 then (b &&& c) ||| ((b ^^^ 4294967295) &&& d)
  else if i < 32 then (d &&& b) ||| ((d ^^^ 4294967295) &&& c)
  else if i < 48 then b ^^^ c ^^^ d
  else c ^^^ (b ||| (d ^^^ 4294967295))

/-- MD5 message-word schedule for round `i`. -/
def md5g (i : Nat) : Nat :=
  if i < 16 then i
  else if i < 32 then (5*i + 1) % 16
  else if i < 48 then (3*i + 5) % 16
  else (7*i) % 16

/-- One MD5 round applied to the state `(a, b, c, d)`. -/
def md5Step (M : List Nat) (st : Nat × Nat × Nat × Nat) (i : Nat) : Nat × Nat × Nat × Nat :=
  let (a, b, c, d) := st
  let f := (md5F i b c d + a + md5K.getD i 0 + M.getD (md5g i) 0) % 4294967296
  (d, (b + rotl32 f (md5S.getD i 0)) % 4294967296, b, c)

/-- Group bytes into little-endian 32-bit words. -/
def toWordsLE : List Nat → List Nat
  | b0 :: b1 :: b2 :: b3 :: rest =>
      (b0 + 256 * b1 + 65536 * b2 + 16777216 * b3) :: toWordsLE rest
  | _ => []

/-- `k` little-endian bytes of `x`. -/
def leBytes : Nat → Nat → List Nat
  | 0, _ => []
  | k + 1, x => (x % 256) :: leBytes k (x / 256)

/-- MD5 padding: `0x80`, zeros to 56 mod 64, then the 64-bit bit length. -/
def md5Pad (msg : List Nat) : List Nat :=
  msg ++ [128] ++ List.replicate ((120 - ((msg.length + 1) % 64)) % 64) 0
      ++ leBytes 8 ((msg.length * 8) % 18446744073709551616)

/-- Process one 64-byte chunk (as 16 words) through the 64 MD5 rounds. -/
def md5Chunk (st : Nat × Nat × Nat × Nat) (M : List Nat) : Nat × Nat × Nat × Nat :=
  let (a, b, c, d) := (List.range 64).foldl (md5Step M) st
  let (a0, b0, c0, d0) := st
  ((a + a0) % 4294967296, (b + b0) % 4294967296, (c + c0) % 4294967296, (d + d0) % 4294967296)

/-- Fold the chunk function over all 64-byte chunks; fuel-based so that it
reduces in the kernel (the padded length bounds the number of chunks). -/
def md5ChunksFuel : Nat → Nat × Nat × Nat × Nat → List Nat → Nat × Nat × Nat × Nat
  | 0, st, _ => st
  | fuel + 1, st, bytes =>
      if bytes.length < 64 then st
      else md5ChunksFuel fuel (md5Chunk st (toWordsLE (bytes.take 64))) (bytes.drop 64)

def md5Chunks (st : Nat × Nat × Nat × Nat) (bytes : List Nat) : Nat × Nat × Nat × Nat :=
  md5ChunksFuel bytes.length st bytes

/-- The 16-byte MD5 digest of a byte string. -/
def md5Bytes (msg : List Nat) : List Nat :=
  let (a, b, c, d) := md5Chunks (1732584193, 4023233417, 2562383102, 271733878) (md5Pad msg)
  leBytes 4 a ++ leBytes 4 b ++ leBytes 4 c ++ leBytes 4 d

/-- Lowercase hexadecimal digits, as used by `hexdigest()`. -/
def hexDigitChars : List Char :=
  (List.range 16).map (fun n => if n < 10 then Char.ofNat (48 + n) else Char.ofNat (87 + n))

/-- Two lowercase hex characters for one byte. -/
def byteToHex (b : Nat) : List Char := [hexDigitChars.getD (b / 16) '0', hexDigitChars.getD (b % 16) '0']

/-- `hashlib.md5(msg).hexdigest()` as a character list. -/
def md5Hex (msg : List Nat) : List Char := (md5Bytes msg).flatMap byteToHex

/-- UTF-8 encoding of one character (Python `str.encode()`). -/
def charUtf8 (c : Char) : List Nat :=
  let n := c.toNat
  if n < 128 then [n]
  else if n < 2048 then [192 + n / 64, 128 + n % 64]
  else if n < 65536 then [224 + n / 4096, 128 + (n / 64) % 64, 128 + n % 64]
  else [240 + n / 262144, 128 + (n / 4096) % 64, 128 + (n / 64) % 64, 128 + n % 64]

/-- UTF-8 encoding of a string (Python `str.encode()`). -/
def strUtf8 (s : String) : List Nat := s.toList.flatMap charUtf8

/-! ## Decimal rendering of a nonnegative integer (Python `f"{expense_id}"`)

Fuel-based so that it reduces in the kernel. -/

def natDigitsAux : Nat → Nat → List Char → List Char
  | 0, _, acc => acc
  | fuel + 1, n, acc =>
      let d := Char.ofNat (48 + n % 10)
      if n < 10 then d :: acc else natDigitsAux fuel (n / 10) (d :: acc)

/-- The decimal digit characters of `n` (most significant first). -/
def natDigits (n : Nat) : List Char := natDigitsAux (n + 1) n []

/-! ## Tag codec (`src/utils.py`)

`extract_swid_from_memo` runs `re.search(r"\[SWID:(\d+)-(\w+)\]", memo)`.
The model implements exactly this search: try to match the pattern at every
position, left to right.  Because `-` is not in `\d` and `]` is not in `\w`,
the greedy `\d+`/`\w+` with backtracking match exactly the maximal runs of
digit/word characters, which is what the matcher below computes.
`\d` and `\w` are modelled by their ASCII fragments (the only characters the
program ever puts inside a tag). -/

/-- ASCII fragment of the regex class `\d`. -/
def isDigitChar (c : Char) : Bool := c.isDigit

/-- ASCII fragment of the regex class `\w`. -/
def isWordChar (c : Char) : Bool := c.isAlphanum || c == '_'

/-- The literal characters `[SWID:` opening a tag. -/
def swidMarker : List Char := ['[', 'S', 'W', 'I', 'D', ':']

/-- Python `int()` on a string of decimal digits. -/
def parseDigits (ds : List Char) : Nat :=
  ds.foldl (fun n c => 10 * n + (c.toNat - 48)) 0

/-- Drop an expected literal from the front of `cs`, or fail. -/
def dropLit : List Char → List Char → Option (List Char)
  | [], cs => some cs
  | _, [] => none
  | p :: ps, c :: cs => if c = p then dropLit ps cs else none

/-- Match `\[SWID:(\d+)-(\w+)\]` at the start of `cs`:
returns (full match, group 1 as an integer, group 2). -/
def matchTagAt (cs : List Char) : Option (List Char × Nat × List Char) :=
  match dropLit swidMarker cs with
  | none => none
  | some r1 =>
    let ds := r1.takeWhile isDigitChar
    match r1.dropWhile isDigitChar with
    | [] => none
    | c :: r3 =>
      if c = '-' ∧ ds ≠ [] then
        let ws := r3.takeWhile isWordChar
        match r3.dropWhile isWordChar with
        | [] => none
        | c2 :: _ =>
            if c2 = ']' ∧ ws ≠ [] then
              some (swidMarker ++ (ds ++ ('-' :: (ws ++ [']']))), parseDigits ds, ws)
            else none
      else none

/-- `re.search`: try the pattern at each position, returning the leftmost match. -/
def scanTag : List Char → Option (List Char × Nat × List Char)
  | [] => matchTagAt []
  | c :: cs =>
      match matchTagAt (c :: cs) with
      | some r => some r
      | none => scanTag cs

/-- `extract_swid_from_memo` from `src/utils.py`: the Python function returns a
triple `(full match, id, hash)` or `(None, None, None)`; each component is
modelled as an `Option`. -/
def extract_swid_from_memo (memo : String) : Option String × Option Nat × Option String :=
  match scanTag memo.toList with
  | some (full, n, ws) => (some (String.mk full), some n, some (String.mk ws))
  | none => (none, none, none)

/-- `generate_truncated_hash_for_updated_time` from `src/utils.py`:
the first 4 characters of `hashlib.md5(updated_at.encode()).hexdigest()`. -/
def generate_truncated_hash_for_updated_time (updated_at : String) : String :=
  String.mk ((md5Hex (strUtf8 updated_at)).take 4)

/-- `construct_memo_swid_tag` from `src/utils.py`: `f"[SWID:{expense_id}-{short_hash}]"`. -/
def construct_memo_swid_tag (expense_id : Nat) (updated_at : String) : String :=
  let short_hash := generate_truncated_hash_for_updated_time updated_at
  "[SWID:" ++ String.mk (natDigits expense_id) ++ "-" ++ short_hash ++ "]"

/-! ## The program's record types

Python dictionaries with a fixed key set are modelled as structures; keys whose
value can be `None`, or that can be absent, are `Option` fields. -/

/-- The Splitwise expense dictionary built by `SW.get_expenses` in `src/sw.py`
(`expense_dict`).  `swid` and `updated_time` use `""` for a missing value, as
the consumers read them with `.get(..., '')`. -/
structure SwExpense where
  id : Nat
  description : String
  cost : ℚ
  date : Option String
  created_time : Option String := none
  updated_time : String
  deleted_time : Option String
  group_name : String
  swid : String
  users : List String
  owed : ℚ
  what_other_users_paid : ℚ := 0
  current_user_paid : Bool
deriving DecidableEq, Repr

/-- A YNAB subtransaction dictionary. -/
structure SubTxn where
  amount : Int
  payee_name : Option String := none
  memo : Option String := none
  category_id : Option String := none
deriving DecidableEq, Repr

/-- A YNAB transaction dictionary (fetched or under construction); absent keys
are `none`. -/
structure YnabTxn where
  id : Option String := none
  account_id : Option String := none
  date : Option String := none
  amount : Int := 0
  payee_name : Option String := none
  memo : Option String := none
  cleared : Option String := none
  subtransactions : List SubTxn := []
  import_id : Option String := none
  frequency : Option String := none
  category_id : Option String := none
deriving DecidableEq, Repr

/-- `combine_names` from `src/utils.py`. -/
def combine_names (string_list : List String) : String :=
  match string_list with
  | [] => ""
  | [x] => x
  | l => String.intercalate ", " l.dropLast ++ " and " ++ l.getLastD ""

/-- `check_if_needs_to_update` from `src/utils.py`.  `not expense_swid` in the
source is Python truthiness on `Optional[int]` (both `None` and `0` are falsy). -/
def check_if_needs_to_update (sw_expense : SwExpense) (ynab_transaction : YnabTxn) : Bool :=
  let expense_swid := (extract_swid_from_memo sw_expense.swid).2.1
  if !pyTruthyOptNat expense_swid then false
  else
    let r := extract_swid_from_memo (ynab_transaction.memo.getD "")
    let ynab_swid := r.2.1
    let ynab_hash := r.2.2
    if !pyTruthyOptNat ynab_swid then false
    else if ynab_swid != expense_swid then false
    else
      let sw_update_time := sw_expense.updated_time
      if sw_update_time == "" then false
      else
        (ynab_swid == expense_swid)
          && (some (generate_truncated_hash_for_updated_time sw_update_time) != ynab_hash)

/-! ## Python numeric primitives on exact rationals -/

/-- Python `int(x)`: truncation toward zero (a rational is stored in lowest
terms, so truncating division of numerator by denominator). -/
def pyInt (q : ℚ) : Int := q.num.tdiv q.den

/-- Python `round(x)`: round half to even, to an integer. -/
def pyRound (q : ℚ) : Int :=
  let f := q.num.fdiv q.den
  let r := q - f
  if r < 1/2 then f
  else if 1/2 < r then f + 1
  else if f % 2 = 0 then f else f + 1

/-- Python `round(x, 2)`: round half to even at 2 decimal places. -/
def pyRound2 (q : ℚ) : ℚ := (pyRound (q * 100) : ℚ) / 100

/-! ## Naive datetimes (`datetime.strptime`, comparison, `strftime`)

The program parses expense dates with `datetime.strptime(s, "%Y-%m-%dT%H:%M:%SZ")`
and compares/formats the parsed values.  The model below parses that format on
zero-padded inputs (the form the external API produces), with the calendar
validation `datetime` performs; a failed parse is a `ValueError`. -/

structure PyDateTime where
  year : Nat
  month : Nat
  day : Nat
  hour : Nat
  minute : Nat
  second : Nat
deriving DecidableEq, Repr

/-- An injective monotone key: comparing keys is the field-lexicographic
(i.e. chronological) comparison, given the parser's field bounds. -/
def PyDateTime.toNatKey (d : PyDateTime) : Nat :=
  ((((d.year * 13 + d.month) * 32 + d.day) * 24 + d.hour) * 60 + d.minute) * 62 + d.second

def isLeapYear (y : Nat) : Bool :=
  (y % 4 == 0 && y % 100 != 0) || y % 400 == 0

def daysInMonth (y m : Nat) : Nat :=
  if m = 2 then (if isLeapYear y then 29 else 28)
  else if m = 4 ∨ m = 6 ∨ m = 9 ∨ m = 11 then 30
  else 31

/-- Numeric value of a decimal digit character (49 for a non-digit, which makes
every field check below fail). -/
def digitVal (c : Char) : Nat :=
  if c.isDigit then c.toNat - 48 else 49

/-- `datetime.strptime(s, "%Y-%m-%dT%H:%M:%SZ")` on zero-padded input,
with `datetime`'s range validation.  `none` models a raised `ValueError`. -/
def strptimeExpense (s : String) : Option PyDateTime :=
  match s.toList with
  | [y1, y2, y3, y4, '-', m1, m2, '-', d1, d2, 'T', h1, h2, ':', i1, i2, ':', s1, s2, 'Z'] =>
      if [y1, y2, y3, y4, m1, m2, d1, d2, h1, h2, i1, i2, s1, s2].all Char.isDigit then
        let y := 1000 * digitVal y1 + 100 * digitVal y2 + 10 * digitVal y3 + digitVal y4
        let mo := 10 * digitVal m1 + digitVal m2
        let d := 10 * digitVal d1 + digitVal d2
        let h := 10 * digitVal h1 + digitVal h2
        let mi := 10 * digitVal i1 + digitVal i2
        let sec := 10 * digitVal s1 + digitVal s2
        if 1 ≤ y ∧ 1 ≤ mo ∧ mo ≤ 12 ∧ 1 ≤ d ∧ d ≤ daysInMonth y mo
            ∧ h ≤ 23 ∧ mi ≤ 59 ∧ sec ≤ 61 then
          some ⟨y, mo, d, h, mi, sec⟩
        else none
      else none
  | _ => none

def padZero (width : Nat) (n : Nat) : List Char :=
  let ds := natDigits n
  List.replicate (width - ds.length) '0' ++ ds

/-- `.strftime("%Y-%m-%d")`. -/
def strftimeYMD (d : PyDateTime) : String :=
  String.mk (padZero 4 d.year ++ '-' :: padZero 2 d.month ++ '-' :: padZero 2 d.day)

/-- Lift an `Option` to `Except`, modelling a raised exception. -/
def exceptOfOption {α : Type} (o : Option α) (e : String) : Except String α :=
  o.elim (.error e) .ok

/-! ## `src/sw.py`: users and the expense normalizer

External `Splitwise` objects are modelled by explicit records; the vendor
getter calls become field reads.  Shares and costs (strings parsed with
`float(...)` in the source) are carried as exact rationals. -/

/-- A Splitwise user as seen through the vendor getters. -/
structure RawUser where
  first_name : Option String
  last_name : Option String
  id : Option Nat
  paid_share : ℚ := 0
  owed_share : ℚ := 0
deriving DecidableEq, Repr

/-- `get_user_first_and_last_name_as_id` from `src/sw.py`.  Its two `assert`s
are error results: both names must be Python-falsy (the bare
`assert not user_first_name and not user_last_name`) and the id must not be
`None`; an `AssertionError` aborts the caller. -/
def get_user_first_and_last_name_as_id (user : RawUser) : Except String String :=
  let user_first_name := if pyTruthyOptStr user.first_name then user.first_name.getD "" else ""
  let user_last_name := if pyTruthyOptStr user.last_name then user.last_name.getD "" else ""
  if ¬(user_first_name = "" ∧ user_last_name = "") then .error "AssertionError"
  else match user.id with
    | none => .error "AssertionError: User ID should not be None"
    | some i => .ok ("User #" ++ String.mk (natDigits i))

/-- `get_user_first_and_last_name` from `src/sw.py`: falls back to
`get_user_first_and_last_name_as_id` when both names are falsy, so it can only
raise through that fallback (on a `None` id). -/
def get_user_first_and_last_name (user : RawUser) : Except String String :=
  let user_first_name := if pyTruthyOptStr user.first_name then user.first_name.getD "" else ""
  let user_last_name := if pyTruthyOptStr user.last_name then user.last_name.getD "" else ""
  if user_first_name = "" ∧ user_last_name = "" then get_user_first_and_last_name_as_id user
  else if user_last_name = "" then .ok user_first_name
  else .ok (user_first_name ++ " " ++ user_last_name)

/-- `get_user_first_and_last_name_with_id` from `src/sw.py`: asserts the id is
not `None`, then on a falsy first name falls back to
`get_user_first_and_last_name_as_id` — which raises `AssertionError` whenever
the last name is truthy. -/
def get_user_first_and_last_name_with_id (user : RawUser) : Except String String :=
  match user.id with
  | none => .error "AssertionError: User ID should not be None"
  | some i =>
      if !pyTruthyOptStr user.first_name then get_user_first_and_last_name_as_id user
      else match get_user_first_and_last_name user with
        | .error e => .error e
        | .ok n => .ok (n ++ " - " ++ String.mk (natDigits i))

/-- A Splitwise expense as seen through the vendor getters. -/
structure RawExpense where
  id : Nat
  description : String
  cost : ℚ
  date : Option String
  created_at : Option String := none
  updated_at : String
  deleted_at : Option String
  group_id : Option Int
  creation_method : Option String
  payment : Bool := false
  users : List RawUser
deriving DecidableEq, Repr

/-- The `SW` client state: the current user's rendered name and id (set in
`SW.__init__`), and the group-name lookup collaborator (`sw.getGroup(...).getName()`). -/
structure SWEnv where
  current_user : String
  current_user_id : Nat
  groupNameOf : Int → String

namespace SW

/-- The `for user in users` loop of `SW._expense_involves_current_user`:
renders each user in turn, returns at the first match, and a raising render
aborts the scan. -/
def involvesAux (env : SWEnv) : List RawUser → Except String Bool
  | [] => .ok false
  | u :: rest =>
      match get_user_first_and_last_name_with_id u with
      | .error e => .error e
      | .ok n => if n == env.current_user then .ok true else involvesAux env rest

/-- `SW._expense_involves_current_user`. -/
def expense_involves_current_user (env : SWEnv) (expense : RawExpense) :
    Except String Bool :=
  involvesAux env expense.users

/-- `SW._expense_group_name`. -/
def expense_group_name (env : SWEnv) (expense : RawExpense) : String :=
  match expense.group_id with
  | some gid => if 0 < gid then env.groupNameOf gid else ""
  | none => ""

/-- `SW._is_debt_consolidation_expense`: a `debt_consolidation` creation method
and no group name. -/
def is_debt_consolidation_expense (env : SWEnv) (expense : RawExpense) : Bool :=
  (expense.creation_method == some "debt_consolidation")
    && (expense_group_name env expense == "")

/-- The `for user in users` loop of `SW._current_user_paid`: the name is
rendered before the paid-share test, so a raising render aborts the scan even
when a later user would match. -/
def currentUserPaidAux (env : SWEnv) (cost : ℚ) : List RawUser → Except String Bool
  | [] => .ok false
  | u :: rest =>
      match get_user_first_and_last_name_with_id u with
      | .error e => .error e
      | .ok n =>
          if (u.paid_share == cost) && (n == env.current_user) then .ok true
          else currentUserPaidAux env cost rest

/-- `SW._current_user_paid`. -/
def current_user_paid (env : SWEnv) (expense : RawExpense) : Except String Bool :=
  currentUserPaidAux env expense.cost expense.users

/-- One step of the per-user fold in `SW.get_expenses`: accumulates the other
participants' names, the current user's `owed`, and `what_other_users_paid`.
Either name render can raise, aborting the generator. -/
def userFoldStep (env : SWEnv) (cost : ℚ) (acc : List String × ℚ × ℚ) (u : RawUser) :
    Except String (List String × ℚ × ℚ) :=
  match get_user_first_and_last_name_with_id u with
  | .error e => .error e
  | .ok n =>
      if n == env.current_user then .ok (acc.1, cost - u.owed_share, acc.2.2)
      else
        match get_user_first_and_last_name u with
        | .error e => .error e
        | .ok m => .ok (acc.1 ++ [m], acc.2.1, acc.2.2 + u.owed_share)

/-- The body of the `for expense in cur_expenses` loop in `SW.get_expenses`:
`.ok none` means the expense is skipped (no dictionary yielded), `.error` an
`AssertionError` escaping a name render.  The phases run in source order:
involvement check, date check, `_current_user_paid`, then the per-user fold.
Payment and debt-consolidation expenses are logged but processed normally (the
historical `continue`s are commented out in the source). -/
def normalizeExpense (env : SWEnv) (expense : RawExpense) :
    Except String (Option SwExpense) :=
  match expense_involves_current_user env expense with
  | .error e => .error e
  | .ok inv =>
    if !inv then .ok none
    else
      let swid := construct_memo_swid_tag expense.id expense.updated_at
      if expense.date = none then .ok none
      else
        match current_user_paid env expense with
        | .error e => .error e
        | .ok paid =>
          match expense.users.foldlM (userFoldStep env expense.cost) ([], 0, 0) with
          | .error e => .error e
          | .ok (us, owed, what_other_users_paid) =>
            .ok (some {
              id := expense.id
              description := expense.description
              cost := expense.cost
              date := expense.date
              created_time := expense.created_at
              updated_time := expense.updated_at
              deleted_time := expense.deleted_at
              group_name := expense_group_name env expense
              swid := swid
              users := us
              owed := owed
              what_other_users_paid := what_other_users_paid
              current_user_paid := paid })

/-- `SW.get_expenses` with pagination collapsed: the generator yields the
normalized dictionary of every fetched expense that is not skipped, in order;
an `AssertionError` mid-batch aborts the whole generator. -/
def get_expenses (env : SWEnv) (raws : List RawExpense) :
    Except String (List SwExpense) :=
  raws.foldlM (fun acc r =>
    match normalizeExpense env r with
    | .error e => .error e
    | .ok none => .ok acc
    | .ok (some x) => .ok (acc ++ [x])) []

end SW

/-! ## `src/main.py`: the forward pass `sw_to_ynab`

Python dictionaries used as keyed maps are association lists with dictionary
semantics: updating an existing key keeps its position, a new key is appended
(insertion order is what `.values()` iterates). -/

def alistGet {κ α : Type} [DecidableEq κ] (m : List (κ × α)) (k : κ) : Option α :=
  (m.find? (fun p => p.1 = k)).map (·.2)

def alistInsert {κ α : Type} [DecidableEq κ] (m : List (κ × α)) (k : κ) (v : α) :
    List (κ × α) :=
  if m.any (fun p => p.1 = k) then m.map (fun p => if p.1 = k then (k, v) else p)
  else m ++ [(k, v)]

/-- `_add_transaction_to_swid_map` from `src/main.py`. -/
def _add_transaction_to_swid_map (m : List (Nat × YnabTxn)) (transaction : YnabTxn) :
    List (Nat × YnabTxn) :=
  let memo := transaction.memo.getD ""
  if memo = "" then m
  else
    match (extract_swid_from_memo memo).2.1 with
    | some sw_id => alistInsert m sw_id transaction
    | none => m

/-- One step of the revision-collapse loop in `sw_to_ynab` (lines 150-178):
state is `(valid_expenses, latest_expenses_by_swid)`.  An expense without a
date is skipped with a warning; an expense with a truthy `swid` is keyed by
the id parsed from it (`None` when the tag does not parse) and replaces the
stored one only when its parsed date is strictly later; an expense with a
falsy `swid` is always kept.  A date that fails `strptime` raises. -/
def collapseStep (st : List SwExpense × List (Option Nat × SwExpense)) (expense : SwExpense) :
    Except String (List SwExpense × List (Option Nat × SwExpense)) :=
  match expense.date with
  | none => .ok st
  | some d =>
    if expense.swid ≠ "" then
      match exceptOfOption (strptimeExpense d) "ValueError" with
      | .error e => .error e
      | .ok expense_date =>
        let key := (extract_swid_from_memo expense.swid).2.1
        match alistGet st.2 key with
        | some existing =>
            match exceptOfOption (strptimeExpense (existing.date.getD "")) "ValueError" with
            | .error e => .error e
            | .ok existing_date =>
                if existing_date.toNatKey < expense_date.toNatKey then
                  .ok (st.1, alistInsert st.2 key expense)
                else .ok st
        | none => .ok (st.1, alistInsert st.2 key expense)
    else .ok (st.1 ++ [expense], st.2)

/-- The revision-collapse phase: `valid_expenses` followed by
`latest_expenses_by_swid.values()`. -/
def collapseExpenses (expenses : List SwExpense) : Except String (List SwExpense) := do
  let st ← expenses.foldlM collapseStep ([], [])
  .ok (st.1 ++ st.2.map (·.2))

/-- `YNABClient.create_import_id` from `src/ynab.py`: `None` unless the date
starts with `\d{4}-\d{2}-\d{2}` (`re.match` anchors at the start). -/
def create_import_id (amount : Int) (date : String) (import_hash : Option String) :
    Option String :=
  let ok := match date.toList with
    | a :: b :: c :: d :: '-' :: e :: f :: '-' :: g :: h :: _ =>
        [a, b, c, d, e, f, g, h].all Char.isDigit
    | _ => false
  if ok then
    some ("YNAB:" ++ toString amount ++ ":" ++ date
      ++ (match import_hash with | some ih => ":" ++ ih | none => ""))
  else none

/-- Static per-pass inputs of the main loop. -/
structure PassEnv where
  ynab_account_id : String
  now : PyDateTime
  importHash : Nat → String

/-- Mutable state of the `for expense in valid_expenses` loop: the dedup map,
the three outgoing batches, the delete calls already issued, and how many of
the import hashes (`secrets.token_hex(4)`) have been drawn. -/
structure PassState where
  swid_map : List (Nat × YnabTxn)
  ynab_transactions : List YnabTxn := []
  scheduled_transactions : List YnabTxn := []
  updated_transactions : List YnabTxn := []
  deletes : List String := []
  hashCounter : Nat := 0
deriving DecidableEq, Repr

/-- Payload construction and routing (lines 235-311): everything after the
deleted/duplicate checks for one expense.  `transaction_id_to_update` is the
value the loop body may have stored on the expense dictionary. -/
def buildAndRoute (env : PassEnv) (st : PassState) (expense : SwExpense)
    (transaction_id_to_update : Option String) : Except String PassState :=
  match expense.date with
  | none => .error "KeyError: date"
  | some dateStr =>
    let total_cost : Int := -(pyInt (expense.cost * 1000))
    let what_i_paid : Int := -((pyInt (expense.cost * 1000)) - pyInt (expense.owed * 1000))
    let what_i_am_owed : Int := pyInt (expense.owed * 1000)
    let payee := if expense.group_name ≠ "" then expense.group_name else "Splitwise"
    let transaction : YnabTxn :=
      if expense.current_user_paid then
        { account_id := some env.ynab_account_id
          date := some dateStr
          amount := what_i_am_owed
          payee_name := some payee
          memo := some expense.description
          cleared := some "cleared" }
      else
        { account_id := some env.ynab_account_id
          date := some dateStr
          amount := what_i_paid
          payee_name := some payee
          subtransactions := [
            { amount := total_cost, payee_name := some expense.description,
              memo := some "Total Cost" },
            { amount := what_i_am_owed, payee_name := some (combine_names expense.users),
              memo := some "What others owe." }]
          memo := some (String.intercalate " "
            [expense.description.trim, "with", combine_names expense.users])
          cleared := some "cleared" }
    let transaction :=
      if expense.swid ≠ "" then
        { transaction with memo := some (transaction.memo.getD "" ++ " " ++ expense.swid) }
      else transaction
    match exceptOfOption (strptimeExpense dateStr) "ValueError" with
    | .error e => .error e
    | .ok parsedDate =>
      let import_hash := env.importHash st.hashCounter
      let transaction :=
        { transaction with import_id :=
            create_import_id transaction.amount (strftimeYMD parsedDate) (some import_hash) }
      let transaction_date := parsedDate
      if env.now.toNatKey < transaction_date.toNatKey then
        let transaction := { transaction with cleared := some "uncleared" }
        .ok { st with
          scheduled_transactions := st.scheduled_transactions ++ [transaction]
          swid_map := _add_transaction_to_swid_map st.swid_map transaction
          hashCounter := st.hashCounter + 1 }
      else if pyTruthyOptStr transaction_id_to_update then
        let transaction := { transaction with id := transaction_id_to_update }
        .ok { st with
          updated_transactions := st.updated_transactions ++ [transaction]
          swid_map := _add_transaction_to_swid_map st.swid_map transaction
          hashCounter := st.hashCounter + 1 }
      else
        .ok { st with
          ynab_transactions := st.ynab_transactions ++ [transaction]
          swid_map := _add_transaction_to_swid_map st.swid_map transaction
          hashCounter := st.hashCounter + 1 }

/-- The body of the main loop of `sw_to_ynab` (lines 199-311) for one expense. -/
def processExpense (env : PassEnv) (st : PassState) (expense : SwExpense) :
    Except String PassState :=
  if pyTruthyOptStr expense.deleted_time then
    -- deleted expense: delete from YNAB when present there, never build a payload
    match (extract_swid_from_memo expense.swid).2.1 with
    | some k =>
        match alistGet st.swid_map k with
        | some txn =>
            match txn.memo with
            | none => .error "KeyError: memo"
            | some tmemo =>
              if (extract_swid_from_memo tmemo).2.1 = some k then
                match txn.id with
                | some tid => .ok { st with deletes := st.deletes ++ [tid] }
                | none => .error "KeyError: id"
              else .ok st
        | none => .ok st
    | none => .ok st
  else
    if expense.swid ≠ "" then
      match (extract_swid_from_memo expense.swid).2.1 with
      | some k =>
          match alistGet st.swid_map k with
          | some ynab_transaction =>
              if !check_if_needs_to_update expense ynab_transaction then .ok st
              else
                match ynab_transaction.id with
                | some tid => buildAndRoute env st expense (some tid)
                | none => .error "KeyError: id"
          | none => buildAndRoute env st expense none
      | none => buildAndRoute env st expense none
    else buildAndRoute env st expense none

/-- The external write calls submitted inside the `try` block of `sw_to_ynab`. -/
inductive WriteCall
  | bulkCreate (ts : List YnabTxn)
  | bulkUpdate (ts : List YnabTxn)
  | schedCreate (t : YnabTxn)
deriving DecidableEq, Repr

/-- The per-item mutation before `create_scheduled_transaction`: drop the
`cleared` key, set `frequency` to `"never"`. -/
def scheduledPayload (t : YnabTxn) : YnabTxn :=
  { t with cleared := none, frequency := some "never" }

/-- The ordered write calls the `try` block would make: one bulk create if the
create batch is nonempty, one bulk update if the update batch is nonempty,
then one scheduled create per scheduled transaction. -/
def writeCallList (creates updates scheduled : List YnabTxn) : List WriteCall :=
  (if creates ≠ [] then [WriteCall.bulkCreate creates] else [])
    ++ (if updates ≠ [] then [WriteCall.bulkUpdate updates] else [])
    ++ scheduled.map (fun t => WriteCall.schedCreate (scheduledPayload t))

/-- Make the calls in order; the first one that raises stops the run.
Returns the attempted calls and whether one failed. -/
def attemptCalls (fails : WriteCall → Bool) : List WriteCall → List WriteCall × Bool
  | [] => ([], false)
  | c :: rest =>
      if fails c then ([c], true)
      else
        let r := attemptCalls fails rest
        (c :: r.1, r.2)

/-- The `try`/`except` submission phase (lines 323-345): on failure, log the
whole immediate-create batch and return 1; otherwise return 0. -/
def submitPhase (fails : WriteCall → Bool) (creates updates scheduled : List YnabTxn) :
    List WriteCall × List YnabTxn × Nat :=
  let r := attemptCalls fails (writeCallList creates updates scheduled)
  if r.2 then (r.1, creates, 1) else (r.1, [], 0)

/-- All inputs of one forward pass, with external reads parameterised:
`expenses` is what `SW.get_expenses` yields, `ynab_swid_map` is the result of
`ynab_swid_to_transaction_mapping`, `fails` says which write call would raise. -/
structure SwToYnabEnv where
  expenses : List SwExpense
  ynab_swid_map : List (Nat × YnabTxn)
  ynab_account_id : String
  now : PyDateTime
  importHash : Nat → String
  fails : WriteCall → Bool

/-- Observable outcome of one forward pass: delete calls issued during the
loop, write calls attempted at the end, transactions logged after a write
failure, and the return code. -/
structure SwToYnabResult where
  deletes : List String
  attempted : List WriteCall
  failed_logged : List YnabTxn
  ret : Nat
deriving DecidableEq, Repr

/-- `ynab_splitwise_transfer.sw_to_ynab` from `src/main.py`, with external I/O
parameterised through `SwToYnabEnv`. -/
def sw_to_ynab (env : SwToYnabEnv) : Except String SwToYnabResult :=
  if env.expenses = [] then .ok ⟨[], [], [], 0⟩
  else
    match collapseExpenses env.expenses with
    | .error e => .error e
    | .ok valid =>
      if valid = [] then .ok ⟨[], [], [], 0⟩
      else
        -- earliest_splitwise_date: parses every valid expense's date (feeds
        -- only the YNAB fetch, which is parameterised as `ynab_swid_map`)
        match valid.mapM
            (fun e => exceptOfOption (strptimeExpense (e.date.getD "")) "ValueError") with
        | .error e => .error e
        | .ok _ =>
          let penv : PassEnv := ⟨env.ynab_account_id, env.now, env.importHash⟩
          match valid.foldlM (processExpense penv) { swid_map := env.ynab_swid_map } with
          | .error e => .error e
          | .ok st =>
            if st.ynab_transactions = [] ∧ st.scheduled_transactions = []
                ∧ st.updated_transactions = []
            then .ok ⟨st.deletes, [], [], 0⟩
            else
              let r := submitPhase env.fails st.ynab_transactions st.updated_transactions
                st.scheduled_transactions
              .ok ⟨st.deletes, r.1, r.2.1, r.2.2⟩

/-! ## `src/main.py`: the reverse pass `ynab_to_sw`

String helpers model the Python `str` methods used there: `replace` and
`split` scan left to right over non-overlapping occurrences.  The replace and
multi-character split are fuel-based (fuel = input length, which each step
strictly consumes) so that they reduce in the kernel. -/

/-- Python `str.lower()` (ASCII fragment). -/
def lowerStr (s : String) : String := String.mk (s.toList.map Char.toLower)

/-- Python `needle in haystack` on strings: substring containment. -/
def containsSub (needle haystack : List Char) : Bool :=
  haystack.tails.any (fun t => needle.isPrefixOf t)

/-- `str.replace(p :: ps, repl)`: leftmost-first, non-overlapping. -/
def replaceSubFuel (p : Char) (ps repl : List Char) : Nat → List Char → List Char
  | _, [] => []
  | 0, rest => rest
  | fuel + 1, c :: cs =>
      if (p :: ps).isPrefixOf (c :: cs) then
        repl ++ replaceSubFuel p ps repl fuel ((c :: cs).drop (ps.length + 1))
      else c :: replaceSubFuel p ps repl fuel cs

/-- Python `s.replace(pat, repl)` for a nonempty pattern. -/
def pyReplace (s pat repl : List Char) : List Char :=
  match pat with
  | [] => s
  | p :: ps => replaceSubFuel p ps repl s.length s

/-- Python `s.split(sep)` for a single-character separator. -/
def splitOnChar (sep : Char) : List Char → List (List Char)
  | [] => [[]]
  | c :: cs =>
      let parts := splitOnChar sep cs
      if c = sep then [] :: parts
      else
        match parts with
        | [] => [[c]]
        | h :: t => (c :: h) :: t

/-- Python `s.split(p :: ps)`: leftmost-first, non-overlapping. -/
def splitOnLitFuel (p : Char) (ps : List Char) : Nat → List Char → List (List Char)
  | _, [] => [[]]
  | 0, rest => [rest]
  | fuel + 1, c :: cs =>
      if (p :: ps).isPrefixOf (c :: cs) then
        [] :: splitOnLitFuel p ps fuel ((c :: cs).drop (ps.length + 1))
      else
        match splitOnLitFuel p ps fuel cs with
        | [] => [[c]]
        | h :: t => (c :: h) :: t

/-- Python `s.split(sep)` for a nonempty separator. -/
def pySplitOnLit (s pat : List Char) : List (List Char) :=
  match pat with
  | [] => [s]
  | p :: ps => splitOnLitFuel p ps s.length s

/-- `extract_names` from `src/main.py` (`ynab_to_sw` local): replace `" and "`
with `","`, delete every remaining space, then split on commas. -/
def extract_names (s : String) : List String :=
  let s1 := pyReplace s.toList " and ".toList [',']
  let s2 := pyReplace s1 [' '] []
  (splitOnChar ',' s2).map String.mk

/-- One share of a Splitwise expense payload (`ExpenseUser`). -/
structure SwUserShare where
  id : Nat
  owed : ℚ
  paid : ℚ
deriving DecidableEq, Repr

/-- The expense payload handed to `SW.create_expense`. -/
structure SwExpensePayload where
  cost : ℚ
  date : String
  description : String
  users : List SwUserShare
deriving DecidableEq, Repr

/-- Static inputs of the reverse pass: the Splitwise friend list, the current
user's id, the id of the ledger's "Splitwise" category, the pass `end_date`
string, and the parameterised outcome of `SW.create_expense`
(`(expense-or-None, errors-or-None)`). -/
structure ReverseEnv where
  current_user_id : Nat
  sw_friends : List String
  sw_friends_ids : List Nat
  splitwise_category_id : Option String
  end_date_str : String
  createExpenseResult : SwExpensePayload → Option Unit × Option Unit

/-- The friend-id resolution loop in `update_splitwise`: for each extracted
name, every Splitwise friend whose lowercased full name contains it. -/
def resolveFriendIds (sw_friends : List String) (sw_friends_ids : List Nat)
    (transaction_friends : List String) : List Nat :=
  transaction_friends.flatMap (fun friend =>
    (sw_friends.zip sw_friends_ids).filterMap (fun p =>
      if containsSub (lowerStr friend).toList (lowerStr p.1).toList then some p.2 else none))

/-- The friend-share loop in `update_splitwise`: every share except the last is
`round((total - current_user_owed) / n, 2)`; the last is the residual
`total - prior - current_user_owed`.  `n` is the full friend count and `acc`
the running `total_friends_share`. -/
def friendSharesAux (total_amount current_user_owed : ℚ) (n : Nat) :
    List Nat → ℚ → List SwUserShare
  | [], _ => []
  | [fid], acc => [{ id := fid, owed := total_amount - acc - current_user_owed, paid := 0 }]
  | fid :: next :: rest, acc =>
      let share := pyRound2 ((total_amount - current_user_owed) / n)
      { id := fid, owed := share, paid := 0 }
        :: friendSharesAux total_amount current_user_owed n (next :: rest) (acc + share)

/-- `update_splitwise` from `src/main.py` (payload construction; the
`create_expense` call itself is made by the caller below). -/
def update_splitwise (env : ReverseEnv) (transaction : YnabTxn)
    (transaction_friends : List String) : SwExpensePayload :=
  let amount : ℚ := transaction.amount
  let category1_amount := amount / (transaction_friends.length + 1) * 100
  let expense_friends_ids := resolveFriendIds env.sw_friends env.sw_friends_ids transaction_friends
  let total_amount := -amount / 1000
  let current_user_owed := -(pyRound2 (category1_amount / 100000))
  { cost := total_amount
    date := env.end_date_str
    description := transaction.payee_name.getD ""
    users :=
      { id := env.current_user_id, owed := current_user_owed, paid := total_amount }
        :: friendSharesAux total_amount current_user_owed
            expense_friends_ids.length expense_friends_ids 0 }

/-- `update_ynab` from `src/main.py`: the mutated transaction submitted with
`update_transaction` — two category sub-lines and the "Added to " memo marker. -/
def update_ynab (splitwise_category_id : Option String) (transaction : YnabTxn)
    (friends : List String) : YnabTxn :=
  let amount : ℚ := transaction.amount
  let category1_amount := amount / (friends.length + 1) * 100
  let category2_amount := amount * 100 - category1_amount
  { transaction with
    subtransactions := [
      { amount := pyRound (category1_amount / 100), category_id := transaction.category_id },
      { amount := pyRound (category2_amount / 100), category_id := splitwise_category_id }]
    memo := some ("Added to " ++ transaction.memo.getD "") }

/-- The memo text after the first `" with "`:
`" ".join(memo.split(" with ")[1:]).strip()`. -/
def reverseMemoSplit (memoStr : String) : String :=
  (String.intercalate " "
    ((pySplitOnLit memoStr.toList " with ".toList).tail.map String.mk)).trim

/-- The participant names the reverse pass extracts from a memo. -/
def reverseFriends (memoStr : String) : List String :=
  extract_names (reverseMemoSplit memoStr)

/-- The body of the transaction loop in `ynab_to_sw` for one fetched ledger
transaction: returns the `create_expense` payload submitted to Splitwise (if
any) and the ledger update payload submitted back to YNAB (if any). -/
def processReverseTxn (env : ReverseEnv) (transaction : YnabTxn) :
    Option SwExpensePayload × Option YnabTxn :=
  if !pyTruthyOptStr transaction.memo then (none, none)
  else
    let memo := lowerStr (transaction.memo.getD "")
    if containsSub "splitwise".toList memo.toList
        && !containsSub "added to splitwise".toList memo.toList then
      let transaction_friends := reverseFriends (transaction.memo.getD "")
      let expensePayload := update_splitwise env transaction transaction_friends
      let r := env.createExpenseResult expensePayload
      if r.1.isSome && r.2.isNone then
        (some expensePayload,
         some (update_ynab env.splitwise_category_id transaction transaction_friends))
      else (some expensePayload, none)
    else (none, none)

/-! ## Specification-side notions used by the theorems -/

/-- The text contains an occurrence of the pattern `\[SWID:(\d+)-(\w+)\]`
(stated structurally, independently of the matcher above). -/
def memoHasSwidTag (memo : String) : Prop :=
  ∃ pre ds ws post : List Char,
    memo.toList = pre ++ swidMarker ++ ds ++ ('-' :: (ws ++ (']' :: post))) ∧
    ds ≠ [] ∧ (∀ c ∈ ds, isDigitChar c) ∧ ws ≠ [] ∧ (∀ c ∈ ws, isWordChar c)

/-- The source id parsed from an expense's `swid` field. -/
def swidKey (e : SwExpense) : Option Nat := (extract_swid_from_memo e.swid).2.1

/-- The parsed date of an expense as a comparison key (0 if absent/unparseable;
in a successful collapse run every compared date parses). -/
def dateKeyD (e : SwExpense) : Nat :=
  ((strptimeExpense (e.date.getD "")).map PyDateTime.toNatKey).getD 0

/-- An expense the revision-collapse loop keys by `κ`: dated, truthy `swid`,
parsing to source id `κ`. -/
def collapseCandidate (κ : Option Nat) (e : SwExpense) : Bool :=
  e.date.isSome && e.swid != "" && (swidKey e == κ)

/-- Sum of the `owed` entries of a Splitwise expense payload. -/
def payloadOwedSum (p : SwExpensePayload) : ℚ :=
  (p.users.map (·.owed)).sum

/-- Decidable equality on `Except` results (absent from the libraries). -/
instance exceptDecEq {ε α : Type} [DecidableEq ε] [DecidableEq α] :
    DecidableEq (Except ε α) := fun a b =>
  match a, b with
  | .error x, .error y =>
      if h : x = y then .isTrue (by rw [h]) else .isFalse (by simp [h])
  | .ok x, .ok y =>
      if h : x = y then .isTrue (by rw [h]) else .isFalse (by simp [h])
  | .error _, .ok _ => .isFalse (by simp)
  | .ok _, .error _ => .isFalse (by simp)

/-! ## Concrete fixtures for counterexamples and witnesses -/

/-- A Splitwise expense whose tag parses with source id 0 (id 0 is falsy in
Python). -/
def cxExpenseZeroId : SwExpense :=
  { id := 0, description := "d", cost := 10, date := some "2025-06-01T10:00:00Z",
    updated_time := "2025-06-01T10:00:00Z", deleted_time := none, group_name := "",
    swid := "[SWID:0-aaaa]", users := [], owed := 5, current_user_paid := true }

/-- A YNAB transaction whose memo tag parses with source id 0 and a stored hash
that differs from any truncated MD5 (z is not a hex digit). -/
def cxTxnZeroId : YnabTxn :=
  { id := some "t1", memo := some "d [SWID:0-zzzz]" }

/-- First revision: source id 12345, dated June 1. -/
def fxExpenseRev1 : SwExpense :=
  { id := 12345, description := "Test Expense", cost := 100,
    date := some "2025-06-01T10:00:00Z", updated_time := "2025-06-01T10:00:00Z",
    deleted_time := none, group_name := "Test Group",
    swid := construct_memo_swid_tag 12345 "2025-06-01T10:00:00Z",
    users := [], owed := 50, current_user_paid := true }

/-- Second revision of the same source id: later date, cost 120/owed 60. -/
def fxExpenseRev2 : SwExpense :=
  { id := 12345, description := "Test Expense Updated", cost := 120,
    date := some "2025-06-02T10:00:00Z", updated_time := "2025-06-02T10:00:00Z",
    deleted_time := none, group_name := "Test Group",
    swid := construct_memo_swid_tag 12345 "2025-06-02T10:00:00Z",
    users := [], owed := 60, current_user_paid := true }

/-- A revision of source id 777 updated June 2 but dated like its sibling. -/
def cxSameDateOldUpdate : SwExpense :=
  { id := 777, description := "first listed", cost := 10,
    date := some "2025-06-05T00:00:00Z", updated_time := "2025-06-01T10:00:00Z",
    deleted_time := none, group_name := "",
    swid := construct_memo_swid_tag 777 "2025-06-01T10:00:00Z",
    users := [], owed := 5, current_user_paid := true }

/-- The same source id with a strictly later `updated_time` and an equal date. -/
def cxSameDateNewUpdate : SwExpense :=
  { id := 777, description := "second listed", cost := 20,
    date := some "2025-06-05T00:00:00Z", updated_time := "2025-06-02T10:00:00Z",
    deleted_time := none, group_name := "",
    swid := construct_memo_swid_tag 777 "2025-06-02T10:00:00Z",
    users := [], owed := 10, current_user_paid := true }

/-- A two-revision forward pass against an empty ledger, no write failures. -/
def fxTwoRevisionEnv : SwToYnabEnv :=
  { expenses := [fxExpenseRev1, fxExpenseRev2], ynab_swid_map := [],
    ynab_account_id := "acct", now := ⟨2025, 7, 1, 0, 0, 0⟩,
    importHash := fun _ => "aaaaaaaa", fails := fun _ => false }

/-- The expected single mirror transaction of the later revision. -/
def fxRev2Txn : YnabTxn :=
  { account_id := some "acct", date := some "2025-06-02T10:00:00Z",
    amount := 60000, payee_name := some "Test Group",
    memo := some ("Test Expense Updated " ++ construct_memo_swid_tag 12345 "2025-06-02T10:00:00Z"),
    cleared := some "cleared",
    import_id := some "YNAB:60000:2025-06-02:aaaaaaaa" }

/-- The current Splitwise user of the normalizer fixtures. -/
def fxCurrentUser : RawUser :=
  { first_name := some "Alice", last_name := some "Smith", id := some 1,
    paid_share := 30, owed_share := 10 }

/-- A normalizer environment whose current user is `fxCurrentUser` (whose
rendering succeeds, so `getD` reads the rendered name). -/
def fxSWEnv : SWEnv :=
  { current_user := (get_user_first_and_last_name_with_id fxCurrentUser).toOption.getD "",
    current_user_id := 1, groupNameOf := fun _ => "G" }

/-- A debt-consolidation expense with no group that involves the current user
and has a date. -/
def cxDebtConsolidation : RawExpense :=
  { id := 42, description := "Debt consolidation", cost := 30,
    date := some "2025-06-01T10:00:00Z", updated_at := "2025-06-01T10:00:00Z",
    deleted_at := none, group_id := none,
    creation_method := some "debt_consolidation", payment := false,
    users := [fxCurrentUser,
      { first_name := some "Bob", last_name := none, id := some 2,
        paid_share := 0, owed_share := 20 }] }

/-- A deleted expense tagged with source id 9. -/
def cxDeletedExpense : SwExpense :=
  { id := 9, description := "gone", cost := 10, date := some "2025-06-01T10:00:00Z",
    updated_time := "2025-06-01T10:00:00Z", deleted_time := some "2025-06-03T00:00:00Z",
    group_name := "", swid := construct_memo_swid_tag 9 "2025-06-01T10:00:00Z",
    users := [], owed := 5, current_user_paid := true }

/-- The ledger transaction mirroring source id 9. -/
def fxMappedTxn : YnabTxn :=
  { id := some "y9",
    memo := some ("gone " ++ construct_memo_swid_tag 9 "2025-06-01T10:00:00Z") }

/-- A loop environment for the deleted-expense witnesses. -/
def fxPassEnv : PassEnv :=
  { ynab_account_id := "acct", now := ⟨2025, 7, 1, 0, 0, 0⟩,
    importHash := fun _ => "cccccccc" }

/-- Loop state whose dedup map holds the mirror of source id 9. -/
def fxPassStateWithNine : PassState := { swid_map := [(9, fxMappedTxn)] }

/-- Loop state with an empty dedup map. -/
def fxPassStateEmpty : PassState := { swid_map := [] }

/-- A future-dated new expense (relative to `fxFutureEnv.now`). -/
def cxFutureExpense : SwExpense :=
  { id := 9, description := "future", cost := 10, date := some "2025-08-01T10:00:00Z",
    updated_time := "2025-08-01T10:00:00Z", deleted_time := none, group_name := "",
    swid := construct_memo_swid_tag 9 "2025-08-01T10:00:00Z",
    users := [], owed := 5, current_user_paid := true }

/-- Loop environment for the future-dated counterexample: `now` is July 1. -/
def fxFutureEnv : PassEnv :=
  { ynab_account_id := "acct", now := ⟨2025, 7, 1, 0, 0, 0⟩,
    importHash := fun _ => "bbbbbbbb" }

/-- Two bare transactions for the submission-phase witnesses. -/
def fxSubmitTxnA : YnabTxn := { amount := 1 }

def fxSubmitTxnB : YnabTxn := { amount := 2 }

/-- A write-failure oracle under which the bulk create call raises. -/
def fxFailCreateOracle : WriteCall → Bool
  | WriteCall.bulkCreate _ => true
  | _ => false

/-- A reverse-pass environment with one Splitwise friend and a successful
`create_expense`. -/
def fxReverseEnv : ReverseEnv :=
  { current_user_id := 1, sw_friends := ["Alice Smith"], sw_friends_ids := [5],
    splitwise_category_id := some "cat-sw", end_date_str := "2025-07-02 00:00:00",
    createExpenseResult := fun _ => (some (), none) }

/-- A ledger transaction of -50 currency units (-50000 milliunits) marked for
the reverse pass with one participant. -/
def fxReverseTxn : YnabTxn :=
  { id := some "t9", amount := -50000, payee_name := some "Lunch",
    memo := some "lunch splitwise with alice", category_id := some "cat-user" }

example : md5Hex (strUtf8 "") = "d41d8cd98f00b204e9800998ecf8427e".toList := by decide

/-! # Theorems

First a stack of helper lemmas about the decimal renderer, the digest, and the
tag matcher; then one theorem (plus witnesses/counterexamples) per claim. -/

/-! ## Decimal rendering -/

theorem natDigitsAux_acc : ∀ (fuel n : Nat) (acc : List Char), n < fuel →
    natDigitsAux fuel n acc = natDigitsAux fuel n [] ++ acc
  | 0, _, _, h => absurd h (by omega)
  | fuel + 1, n, acc, h => by
      by_cases h10 : n < 10
      · simp [natDigitsAux, h10]
      · have hlt : n / 10 < n := Nat.div_lt_self (by omega) (by omega)
        have hdiv : n / 10 < fuel := by omega
        simp only [natDigitsAux, if_neg h10]
        rw [natDigitsAux_acc fuel (n / 10) _ hdiv, natDigitsAux_acc fuel (n / 10) [_] hdiv]
        simp

theorem natDigitsAux_fuel : ∀ (f1 f2 n : Nat), n < f1 → n < f2 →
    natDigitsAux f1 n [] = natDigitsAux f2 n []
  | 0, _, _, h1, _ => absurd h1 (by omega)
  | _ + 1, 0, _, _, h2 => absurd h2 (by omega)
  | f1 + 1, f2 + 1, n, h1, h2 => by
      by_cases h10 : n < 10
      · simp [natDigitsAux, h10]
      · have hlt : n / 10 < n := Nat.div_lt_self (by omega) (by omega)
        have hd1 : n / 10 < f1 := by omega
        have hd2 : n / 10 < f2 := by omega
        simp only [natDigitsAux, if_neg h10]
        rw [natDigitsAux_acc f1 (n / 10) _ hd1, natDigitsAux_acc f2 (n / 10) _ hd2,
            natDigitsAux_fuel f1 f2 (n / 10) hd1 hd2]

theorem natDigits_rec {n : Nat} (h : 10 ≤ n) :
    natDigits n = natDigits (n / 10) ++ [Char.ofNat (48 + n % 10)] := by
  have hlt : n / 10 < n := Nat.div_lt_self (by omega) (by omega)
  show natDigitsAux (n + 1) n [] = natDigits (n / 10) ++ [Char.ofNat (48 + n % 10)]
  rw [show natDigitsAux (n + 1) n [] = natDigitsAux n (n / 10) [Char.ofNat (48 + n % 10)] by
    simp only [natDigitsAux, if_neg (by omega : ¬ n < 10)]]
  rw [natDigitsAux_acc n (n / 10) _ (by omega),
      natDigitsAux_fuel n (n / 10 + 1) (n / 10) (by omega) (by omega)]
  rfl

theorem natDigits_lt10 {n : Nat} (h : n < 10) : natDigits n = [Char.ofNat (48 + n)] := by
  show natDigitsAux (n + 1) n [] = [Char.ofNat (48 + n)]
  simp only [natDigitsAux, if_pos h]
  rw [Nat.mod_eq_of_lt h]

theorem digitChar_isDigit (d : Nat) (hd : d < 10) : (Char.ofNat (48 + d)).isDigit = true := by
  interval_cases d <;> decide

theorem digitChar_toNat (d : Nat) (hd : d < 10) : (Char.ofNat (48 + d)).toNat = 48 + d := by
  interval_cases d <;> decide

theorem natDigits_all_digit : ∀ n : Nat, ∀ c ∈ natDigits n, c.isDigit = true := by
  intro n
  induction n using Nat.strong_induction_on with
  | _ n ih =>
    by_cases h : n < 10
    · rw [natDigits_lt10 h]
      intro c hc
      simp only [List.mem_singleton] at hc
      subst hc
      exact digitChar_isDigit n h
    · rw [natDigits_rec (by omega)]
      intro c hc
      rcases List.mem_append.1 hc with h1 | h2
      · exact ih (n / 10) (Nat.div_lt_self (by omega) (by omega)) c h1
      · simp only [List.mem_singleton] at h2
        subst h2
        exact digitChar_isDigit _ (Nat.mod_lt _ (by omega))

theorem natDigits_ne_nil (n : Nat) : natDigits n ≠ [] := by
  by_cases h : n < 10
  · rw [natDigits_lt10 h]; simp
  · rw [natDigits_rec (by omega)]; simp

theorem parseDigits_append (xs : List Char) (c : Char) :
    parseDigits (xs ++ [c]) = 10 * parseDigits xs + (c.toNat - 48) := by
  unfold parseDigits
  rw [List.foldl_append]
  rfl

theorem parseDigits_natDigits : ∀ n : Nat, parseDigits (natDigits n) = n := by
  intro n
  induction n using Nat.strong_induction_on with
  | _ n ih =>
    by_cases h : n < 10
    · rw [natDigits_lt10 h]
      show 10 * 0 + ((Char.ofNat (48 + n)).toNat - 48) = n
      rw [digitChar_toNat n h]
      omega
    · rw [natDigits_rec (by omega), parseDigits_append,
          ih (n / 10) (Nat.div_lt_self (by omega) (by omega)),
          digitChar_toNat _ (Nat.mod_lt _ (by omega))]
      omega

/-! ## Digest output shape -/

theorem getD_mem_of_mem {l : List Char} {d : Char} (hd : d ∈ l) (i : Nat) :
    l.getD i d ∈ l := by
  rw [List.getD_eq_getElem?_getD]
  cases h : l[i]? with
  | none => simpa using hd
  | some a => simpa using List.getElem?_mem h

theorem mem_byteToHex {b : Nat} {c : Char} (h : c ∈ byteToHex b) : c ∈ hexDigitChars := by
  simp only [byteToHex, List.mem_cons, List.mem_singleton, List.not_mem_nil, or_false] at h
  rcases h with h | h <;> (subst h; exact getD_mem_of_mem (by decide) _)

theorem mem_md5Hex {m : List Nat} {c : Char} (h : c ∈ md5Hex m) : c ∈ hexDigitChars := by
  simp only [md5Hex, List.mem_flatMap] at h
  obtain ⟨b, -, hb⟩ := h
  exact mem_byteToHex hb

theorem hex_isWordChar : ∀ c ∈ hexDigitChars, isWordChar c = true := by decide

theorem leBytes_length : ∀ (k x : Nat), (leBytes k x).length = k
  | 0, _ => rfl
  | k + 1, x => by simp [leBytes, leBytes_length k]

theorem md5Bytes_length (m : List Nat) : (md5Bytes m).length = 16 := by
  rcases h : md5Chunks (1732584193, 4023233417, 2562383102, 271733878) (md5Pad m)
    with ⟨a, b, c, d⟩
  simp [md5Bytes, h, leBytes_length]

theorem flatMap_byteToHex_length : ∀ l : List Nat, (l.flatMap byteToHex).length = 2 * l.length
  | [] => rfl
  | b :: l => by
      simp [List.flatMap_cons, flatMap_byteToHex_length l, byteToHex]
      omega

theorem md5Hex_length (m : List Nat) : (md5Hex m).length = 32 := by
  rw [md5Hex, flatMap_byteToHex_length, md5Bytes_length]

theorem generate_hash_toList (t : String) :
    (generate_truncated_hash_for_updated_time t).toList = (md5Hex (strUtf8 t)).take 4 := rfl

theorem generate_hash_ne_nil (t : String) :
    (generate_truncated_hash_for_updated_time t).toList ≠ [] := by
  rw [generate_hash_toList]
  intro h
  have := congrArg List.length h
  rw [List.length_take, md5Hex_length] at this
  simp at this

theorem generate_hash_word (t : String) :
    ∀ c ∈ (generate_truncated_hash_for_updated_time t).toList, isWordChar c = true := by
  rw [generate_hash_toList]
  intro c hc
  exact hex_isWordChar c (mem_md5Hex (List.mem_of_mem_take hc))

/-! ## The tag matcher -/

theorem dropLit_append (p r : List Char) : dropLit p (p ++ r) = some r := by
  induction p with
  | nil => simp [dropLit]
  | cons c cs ih => simp [dropLit, ih]

theorem dropLit_some : ∀ {p cs r : List Char}, dropLit p cs = some r → cs = p ++ r := by
  intro p
  induction p with
  | nil =>
      intro cs r h
      simp only [dropLit, Option.some.injEq] at h
      simp [h]
  | cons c cs' ih =>
      intro cs r h
      cases cs with
      | nil => simp [dropLit] at h
      | cons x xs =>
          simp only [dropLit] at h
          split at h
          · next hx => subst hx; simp [ih h]
          · exact absurd h (by simp)

theorem takeWhile_all_append {p : Char → Bool} {c : Char} (rest : List Char)
    (hc : p c = false) :
    ∀ ds : List Char, (∀ x ∈ ds, p x = true) →
      (ds ++ c :: rest).takeWhile p = ds ∧ (ds ++ c :: rest).dropWhile p = c :: rest
  | [], _ => by simp [List.takeWhile_cons, List.dropWhile_cons, hc]
  | d :: ds, h => by
      have hd : p d = true := h d (by simp)
      have ih := takeWhile_all_append rest hc ds (fun x hx => h x (by simp [hx]))
      simp [List.takeWhile_cons, List.dropWhile_cons, hd, ih.1, ih.2]

theorem matchTagAt_closed {ds ws rest : List Char}
    (hds : ds ≠ []) (hdall : ∀ x ∈ ds, isDigitChar x = true)
    (hws : ws ≠ []) (hwall : ∀ x ∈ ws, isWordChar x = true) :
    matchTagAt (swidMarker ++ (ds ++ ('-' :: (ws ++ (']' :: rest))))) =
      some (swidMarker ++ (ds ++ ('-' :: (ws ++ [']']))), parseDigits ds, ws) := by
  have h1 := takeWhile_all_append (p := isDigitChar) (c := '-')
    (ws ++ (']' :: rest)) (by decide) ds hdall
  have h2 := takeWhile_all_append (p := isWordChar) (c := ']') rest (by decide) ws hwall
  unfold matchTagAt
  rw [dropLit_append]
  simp only [h1.1, h1.2, h2.1, h2.2]
  simp [hds, hws]

theorem matchTagAt_some {cs full ws : List Char} {n : Nat}
    (h : matchTagAt cs = some (full, n, ws)) :
    ∃ ds rest : List Char,
      cs = swidMarker ++ (ds ++ ('-' :: (ws ++ (']' :: rest)))) ∧
      ds ≠ [] ∧ (∀ x ∈ ds, isDigitChar x = true) ∧
      ws ≠ [] ∧ (∀ x ∈ ws, isWordChar x = true) ∧
      full = swidMarker ++ (ds ++ ('-' :: (ws ++ [']']))) ∧ n = parseDigits ds := by
  unfold matchTagAt at h
  cases hdl : dropLit swidMarker cs with
  | none => rw [hdl] at h; exact absurd h (by simp)
  | some r1 =>
    rw [hdl] at h
    dsimp only at h
    have hcs := dropLit_some hdl
    cases hdw : r1.dropWhile isDigitChar with
    | nil => rw [hdw] at h; exact absurd h (by simp)
    | cons c r3 =>
      rw [hdw] at h
      dsimp only at h
      split at h
      case isFalse => exact absurd h (by simp)
      case isTrue hcond =>
        obtain ⟨hc, hdsne⟩ := hcond
        subst hc
        cases hdw2 : r3.dropWhile isWordChar with
        | nil => rw [hdw2] at h; exact absurd h (by simp)
        | cons c2 rest =>
          rw [hdw2] at h
          dsimp only at h
          split at h
          case isFalse => exact absurd h (by simp)
          case isTrue hcond2 =>
            obtain ⟨hc2, hwsne⟩ := hcond2
            subst hc2
            rw [Option.some.injEq, Prod.mk.injEq] at h
            obtain ⟨hfull, hrest⟩ := h
            rw [Prod.mk.injEq] at hrest
            obtain ⟨hn, hws⟩ := hrest
            subst hfull
            subst hn
            subst hws
            refine ⟨r1.takeWhile isDigitChar, rest, ?_, hdsne, ?_, hwsne, ?_, rfl, rfl⟩
            · rw [hcs]
              have e2 : r3 = r3.takeWhile isWordChar ++ (']' :: rest) := by
                conv_lhs => rw [← List.takeWhile_append_dropWhile (p := isWordChar) (l := r3)]
                rw [hdw2]
              have e1 : r1 = r1.takeWhile isDigitChar
                  ++ ('-' :: (r3.takeWhile isWordChar ++ (']' :: rest))) := by
                conv_lhs => rw [← List.takeWhile_append_dropWhile (p := isDigitChar) (l := r1)]
                conv_lhs => rw [hdw]
                conv_lhs => rw [e2]
              conv_lhs => rw [e1]
            · intro x hx
              exact List.mem_takeWhile_imp hx
            · intro x hx
              exact List.mem_takeWhile_imp hx

theorem matchTagAt_nil : matchTagAt [] = none := rfl

theorem scanTag_of_matchTagAt {cs : List Char} {r : List Char × Nat × List Char}
    (h : matchTagAt cs = some r) : scanTag cs = some r := by
  cases cs with
  | nil => simpa [scanTag] using h
  | cons c cs' => simp [scanTag, h]

theorem scanTag_some : ∀ {cs : List Char} {r : List Char × Nat × List Char},
    scanTag cs = some r → ∃ pre suf : List Char, cs = pre ++ suf ∧ matchTagAt suf = some r := by
  intro cs
  induction cs with
  | nil => intro r h; exact ⟨[], [], rfl, h⟩
  | cons c cs' ih =>
      intro r h
      rw [scanTag] at h
      cases hm : matchTagAt (c :: cs') with
      | some r' =>
          rw [hm] at h
          dsimp only at h
          exact ⟨[], c :: cs', rfl, hm.trans h⟩
      | none =>
          rw [hm] at h
          dsimp only at h
          obtain ⟨pre, suf, hps, hmat⟩ := ih h
          exact ⟨c :: pre, suf, by rw [hps]; rfl, hmat⟩

theorem mk_toList (s : String) : String.mk s.toList = s := rfl

theorem construct_toList (id : Nat) (t : String) :
    (construct_memo_swid_tag id t).toList =
      swidMarker ++ (natDigits id ++
        ('-' :: ((generate_truncated_hash_for_updated_time t).toList ++ (']' :: [])))) := by
  show ("[SWID:" ++ String.mk (natDigits id) ++ "-"
      ++ generate_truncated_hash_for_updated_time t ++ "]").data = _
  simp only [String.data_append]
  show swidMarker ++ natDigits id ++ ['-']
      ++ (generate_truncated_hash_for_updated_time t).data ++ [']'] = _
  simp [String.toList]

/-- C1.  Tag codec round-trip: decoding the encoded tag
`construct_memo_swid_tag(id, t)` returns the full tag text, the same id, and
exactly the 4-character hash `generate_truncated_hash_for_updated_time(t)`;
decoding any text not containing the `[SWID:<digits>-<word chars>]` pattern
returns `(None, None, None)` (the decoder is a total function). -/
theorem tag_codec_roundtrip :
    (∀ (id : Nat) (t : String), t ≠ "" →
        extract_swid_from_memo (construct_memo_swid_tag id t) =
          (some (construct_memo_swid_tag id t), some id,
           some (generate_truncated_hash_for_updated_time t))) ∧
    (∀ memo : String, ¬ memoHasSwidTag memo →
        extract_swid_from_memo memo = (none, none, none)) := by
  constructor
  · intro id t _
    have hmatch := @matchTagAt_closed (natDigits id)
      (generate_truncated_hash_for_updated_time t).toList []
      (natDigits_ne_nil id)
      (fun x hx => by simpa [isDigitChar] using natDigits_all_digit id x hx)
      (generate_hash_ne_nil t) (generate_hash_word t)
    unfold extract_swid_from_memo
    rw [construct_toList, scanTag_of_matchTagAt hmatch]
    have hfull : String.mk (swidMarker ++ (natDigits id
        ++ ('-' :: ((generate_truncated_hash_for_updated_time t).toList ++ [']'])))) =
        construct_memo_swid_tag id t := by
      conv_rhs => rw [← mk_toList (construct_memo_swid_tag id t)]
      rw [construct_toList]
    rw [parseDigits_natDigits]
    simp only [hfull, mk_toList]
  · intro memo h
    unfold extract_swid_from_memo
    cases hscan : scanTag memo.toList with
    | none => rfl
    | some r =>
      obtain ⟨full, n, ws⟩ := r
      obtain ⟨pre, suf, hps, hm⟩ := scanTag_some hscan
      obtain ⟨ds, rest, hsuf, hds, hdall, hws, hwall, -, -⟩ := matchTagAt_some hm
      exact absurd ⟨pre, ds, ws, rest, by rw [hps, hsuf]; simp, hds, hdall, hws, hwall⟩ h

/-- C2 (amended).  `check_if_needs_to_update` returns true iff both tags
extract with a Python-truthy (nonzero) id, the ids match, the expense's
`updated_time` is non-empty, and the stored hash differs from the hash of the
expense's `updated_time`; in every other case (including an extracted id of 0,
or a missing `updated_time`) it returns false. -/
theorem change_detection_characterization (e : SwExpense) (t : YnabTxn) :
    check_if_needs_to_update e t = true ↔
      (pyTruthyOptNat (extract_swid_from_memo e.swid).2.1 = true ∧
       pyTruthyOptNat (extract_swid_from_memo (t.memo.getD "")).2.1 = true ∧
       (extract_swid_from_memo (t.memo.getD "")).2.1 = (extract_swid_from_memo e.swid).2.1 ∧
       e.updated_time ≠ "" ∧
       (extract_swid_from_memo (t.memo.getD "")).2.2 ≠
         some (generate_truncated_hash_for_updated_time e.updated_time)) := by
  unfold check_if_needs_to_update
  dsimp only
  split_ifs with h1 h2 h3 h4
  · rw [Bool.not_eq_true'] at h1
    refine iff_of_false (by simp) ?_
    rintro ⟨ha, -, -, -, -⟩
    rw [h1] at ha
    exact absurd ha (by simp)
  · rw [Bool.not_eq_true'] at h2
    refine iff_of_false (by simp) ?_
    rintro ⟨-, hb, -, -, -⟩
    rw [h2] at hb
    exact absurd hb (by simp)
  · rw [bne_iff_ne] at h3
    refine iff_of_false (by simp) ?_
    rintro ⟨-, -, heq, -, -⟩
    exact h3 heq
  · rw [beq_iff_eq] at h4
    refine iff_of_false (by simp) ?_
    rintro ⟨-, -, -, hu, -⟩
    exact hu h4
  · rw [Bool.not_eq_true', Bool.not_eq_false] at h1 h2
    rw [bne_iff_ne, not_not] at h3
    rw [Bool.not_eq_true, beq_eq_false_iff_ne] at h4
    rw [Bool.and_eq_true, beq_iff_eq, bne_iff_ne]
    constructor
    · rintro ⟨heq, hne⟩
      exact ⟨h1, h2, heq, h4, hne.symm⟩
    · rintro ⟨-, -, heq, -, hne⟩
      exact ⟨heq, hne.symm⟩

/-- Counterexample to C2 as stated: both tags extract, the ids match (both 0)
and the stored hash differs from the hash of the expense's `updated_time`,
yet the function returns false — Python's truthiness check rejects id 0, which
is not one of the claim's "lacks an extractable tag" cases. -/
theorem change_detection_counterexample :
    extract_swid_from_memo cxExpenseZeroId.swid =
      (some "[SWID:0-aaaa]", some 0, some "aaaa") ∧
    extract_swid_from_memo (cxTxnZeroId.memo.getD "") =
      (some "[SWID:0-zzzz]", some 0, some "zzzz") ∧
    some (generate_truncated_hash_for_updated_time cxExpenseZeroId.updated_time) ≠
      some "zzzz" ∧
    cxExpenseZeroId.updated_time ≠ "" ∧
    check_if_needs_to_update cxExpenseZeroId cxTxnZeroId = false := by decide

/-! ## C10: extracted participant names are space-free -/

theorem replaceSpaces_no_space : ∀ (fuel : Nat) (cs : List Char), cs.length ≤ fuel →
    ' ' ∉ replaceSubFuel ' ' [] [] fuel cs
  | _, [], _ => by simp [replaceSubFuel]
  | 0, c :: cs, h => by simp at h
  | fuel + 1, c :: cs, h => by
      by_cases hc : c = ' '
      · subst hc
        have hp : [' '].isPrefixOf (' ' :: cs) = true := by simp [List.isPrefixOf]
        simp only [replaceSubFuel, hp, if_true]
        simpa using replaceSpaces_no_space fuel cs (Nat.le_of_succ_le_succ h)
      · have hp : [' '].isPrefixOf (c :: cs) = false := by
          simp [List.isPrefixOf]
          exact fun hh => hc hh.symm
        simp only [replaceSubFuel, hp, Bool.false_eq_true, if_false]
        intro hmem
        rcases List.mem_cons.1 hmem with h1 | h2
        · exact hc h1.symm
        · exact replaceSpaces_no_space fuel cs (Nat.le_of_succ_le_succ h) h2

theorem splitOnChar_mem_subset {sep : Char} : ∀ (cs part : List Char),
    part ∈ splitOnChar sep cs → ∀ c ∈ part, c ∈ cs := by
  intro cs
  induction cs with
  | nil =>
      intro part hp c hc
      simp only [splitOnChar, List.mem_singleton] at hp
      subst hp
      simp at hc
  | cons x xs ih =>
      intro part hp c hc
      rw [splitOnChar] at hp
      by_cases hx : x = sep
      · rw [if_pos hx] at hp
        rcases List.mem_cons.1 hp with h1 | h2
        · subst h1; simp at hc
        · exact List.mem_cons_of_mem _ (ih part h2 c hc)
      · rw [if_neg hx] at hp
        cases hsp : splitOnChar sep xs with
        | nil =>
            rw [hsp] at hp
            simp only [List.mem_singleton] at hp
            subst hp
            simp only [List.mem_singleton] at hc
            subst hc
            simp
        | cons hpart tparts =>
            rw [hsp] at hp
            rcases List.mem_cons.1 hp with h1 | h2
            · subst h1
              rcases List.mem_cons.1 hc with h3 | h4
              · subst h3; simp
              · have : hpart ∈ splitOnChar sep xs := by rw [hsp]; simp
                exact List.mem_cons_of_mem _ (ih hpart this c h4)
            · have : part ∈ splitOnChar sep xs := by rw [hsp]; simp [h2]
              exact List.mem_cons_of_mem _ (ih part this c hc)

theorem extract_names_no_space :
    ∀ (s name : String), name ∈ extract_names s → ' ' ∉ name.toList := by
  intro s name hmem hsp
  unfold extract_names at hmem
  rw [List.mem_map] at hmem
  obtain ⟨part, hpart, hname⟩ := hmem
  rw [← hname] at hsp
  have hsp' : ' ' ∈ part := hsp
  have hin := splitOnChar_mem_subset _ part hpart ' ' hsp'
  have hrep : pyReplace (pyReplace s.toList " and ".toList [','])  [' '] [] =
      replaceSubFuel ' ' [] [] (pyReplace s.toList " and ".toList [',']).length
        (pyReplace s.toList " and ".toList [',']) := rfl
  rw [hrep] at hin
  exact replaceSpaces_no_space _ _ le_rfl hin

/-- C10.  Every participant name the reverse pass extracts from a memo is
space-free (the extractor replaces `" and "` with a comma and deletes every
remaining space before splitting on commas); consequently the friend-id
resolution only ever tests space-free needles, so a friend that would only be
matched by a space-containing substring is silently dropped. -/
theorem reverse_names_space_free :
    (∀ (s name : String), name ∈ extract_names s → ' ' ∉ name.toList) ∧
    (∀ (sw_friends : List String) (sw_ids : List Nat) (s : String) (fid : Nat),
      fid ∈ resolveFriendIds sw_friends sw_ids (extract_names s) →
      ∃ t ∈ extract_names s, ∃ fr ∈ sw_friends,
        containsSub (lowerStr t).toList (lowerStr fr).toList = true ∧ ' ' ∉ t.toList) := by
  refine ⟨extract_names_no_space, ?_⟩
  intro sw_friends sw_ids s fid hmem
  unfold resolveFriendIds at hmem
  rw [List.mem_flatMap] at hmem
  obtain ⟨t, ht, hmem2⟩ := hmem
  rw [List.mem_filterMap] at hmem2
  obtain ⟨⟨fr, fid'⟩, hzip, hsome⟩ := hmem2
  have hfr : fr ∈ sw_friends := (List.of_mem_zip hzip).1
  by_cases hcond : containsSub (lowerStr t).toList (lowerStr fr).toList = true
  · exact ⟨t, ht, fr, hfr, hcond, extract_names_no_space s t ht⟩
  · rw [if_neg (by simpa using hcond)] at hsome
    exact absurd hsome (by simp)

/-- Witness for C10 at a concrete memo and friend list. -/
theorem reverse_names_space_free_witness :
    (' ' ∉ ("AliceSmith" : String).toList) ∧
    (∃ t ∈ extract_names "Alice Smith and Bob", ∃ fr ∈ ["Bobby Tables"],
      containsSub (lowerStr t).toList (lowerStr fr).toList = true ∧ ' ' ∉ t.toList) :=
  ⟨reverse_names_space_free.1 "Alice Smith and Bob" "AliceSmith" (by decide),
   reverse_names_space_free.2 ["Bobby Tables"] [7] "Alice Smith and Bob" 7 (by decide)⟩

/-! ## C7: reverse-direction share computation -/

theorem friendSharesAux_sum (T C : ℚ) (n : Nat) :
    ∀ (l : List Nat) (acc : ℚ), l ≠ [] →
      ((friendSharesAux T C n l acc).map (·.owed)).sum = T - acc - C
  | [], _, h => absurd rfl h
  | [_], acc, _ => by simp [friendSharesAux]
  | fid :: next :: rest, acc, _ => by
      have ih := friendSharesAux_sum T C n (next :: rest)
        (acc + pyRound2 ((T - C) / n)) (by simp)
      simp only [friendSharesAux, List.map_cons, List.sum_cons, ih]
      ring

/-- C7 (amended).  In `update_splitwise`, when at least one friend id resolves,
the current-user share plus all friend shares sums exactly to the expense total
`-amount/1000` (the residual last share absorbs all rounding); when no friend
resolves, the payload's only share is the rounded current-user share, which is
not tied to the total. -/
theorem reverse_split_sum (env : ReverseEnv) (transaction : YnabTxn)
    (transaction_friends : List String) :
    (resolveFriendIds env.sw_friends env.sw_friends_ids transaction_friends ≠ [] →
      payloadOwedSum (update_splitwise env transaction transaction_friends) =
        -(transaction.amount : ℚ) / 1000) ∧
    (resolveFriendIds env.sw_friends env.sw_friends_ids transaction_friends = [] →
      payloadOwedSum (update_splitwise env transaction transaction_friends) =
        -(pyRound2 ((transaction.amount : ℚ) / (transaction_friends.length + 1)
            * 100 / 100000))) := by
  unfold update_splitwise payloadOwedSum
  dsimp only
  constructor
  · intro hne
    rw [List.map_cons, List.sum_cons, friendSharesAux_sum _ _ _ _ 0 hne]
    ring
  · intro heq
    rw [heq]
    simp [friendSharesAux]

/-- Counterexample to C7 as stated: at amount -50000 with one resolved friend,
the share sum is 50 while `a/1000` is -50; the difference (100) exceeds every
claimed tolerance — the sum equals the negated amount, not `a/1000`. -/
theorem reverse_split_sum_counterexample :
    payloadOwedSum (update_splitwise fxReverseEnv fxReverseTxn ["alice"]) = 50 ∧
    (fxReverseTxn.amount : ℚ) / 1000 = -50 ∧
    ¬((50 : ℚ) - -50 ≤ 1 / 100) := by decide

/-- Witness for C7 at a concrete transaction, in both branches. -/
theorem reverse_split_sum_witness :
    payloadOwedSum (update_splitwise fxReverseEnv fxReverseTxn ["alice"]) =
      -(fxReverseTxn.amount : ℚ) / 1000 ∧
    payloadOwedSum (update_splitwise fxReverseEnv fxReverseTxn ["nomatch"]) =
      -(pyRound2 ((fxReverseTxn.amount : ℚ) / (["nomatch"].length + 1) * 100 / 100000)) :=
  ⟨(reverse_split_sum fxReverseEnv fxReverseTxn ["alice"]).1 (by decide),
   (reverse_split_sum fxReverseEnv fxReverseTxn ["nomatch"]).2 (by decide)⟩

/-! ## C5: debt-consolidation expenses in the normalizer -/

/-- Counterexample to C5 as stated: a debt-consolidation expense with no group
that involves the current user is NOT skipped — the normalizer yields a
canonical expense for it, identical to what the same raw expense produces with
the creation method cleared (the historical `continue` is commented out in
`SW.get_expenses`; only an informational log remains). -/
theorem debt_consolidation_counterexample :
    SW.is_debt_consolidation_expense fxSWEnv cxDebtConsolidation = true ∧
    (SW.normalizeExpense fxSWEnv cxDebtConsolidation).toOption.join.isSome = true ∧
    SW.normalizeExpense fxSWEnv cxDebtConsolidation =
      SW.normalizeExpense fxSWEnv { cxDebtConsolidation with creation_method := none } ∧
    ((SW.get_expenses fxSWEnv [cxDebtConsolidation]).toOption.getD []).length = 1 := by
  decide

/-- C5 (amended).  Debt-consolidation expenses without a group are logged but
processed normally: the normalizer's output does not depend on the creation
method at all, and whenever the generator body returns without raising an
`AssertionError` for an expense that involves the current user and has a date,
it yields a canonical expense rather than skipping it. -/
theorem debt_consolidation_amended :
    (∀ (env : SWEnv) (e : RawExpense) (m : Option String),
        SW.normalizeExpense env e = SW.normalizeExpense env { e with creation_method := m }) ∧
    (∀ (env : SWEnv) (e : RawExpense) (r : Option SwExpense),
        SW.normalizeExpense env e = .ok r →
        SW.expense_involves_current_user env e = .ok true →
        e.date ≠ none → r.isSome = true) := by
  constructor
  · intro env e m
    rfl
  · intro env e r hok hinv hd
    obtain ⟨d, hdd⟩ : ∃ d, e.date = some d := by
      cases hdate : e.date with
      | none => exact absurd hdate hd
      | some d => exact ⟨d, rfl⟩
    unfold SW.normalizeExpense at hok
    rw [hinv] at hok
    dsimp only at hok
    rw [hdd] at hok
    simp only [Bool.not_true] at hok
    rw [if_neg (by simp)] at hok
    rw [if_neg (by simp)] at hok
    cases hcp : SW.current_user_paid env e with
    | error msg =>
        rw [hcp] at hok
        exact absurd hok (by simp)
    | ok paid =>
        rw [hcp] at hok
        dsimp only at hok
        cases hfold : e.users.foldlM (SW.userFoldStep env e.cost) ([], 0, 0) with
        | error msg =>
            rw [hfold] at hok
            exact absurd hok (by simp)
        | ok acc =>
            rw [hfold] at hok
            obtain ⟨us, owed, wo⟩ := acc
            dsimp only at hok
            obtain rfl := Except.ok.inj hok
            rfl

/-! ## C8: reverse-mirror atomicity -/

/-- C8.  For a ledger transaction selected by the reverse mirror (truthy memo
containing "splitwise" but not "added to splitwise"), the Splitwise expense
payload is always submitted, and the follow-up ledger mutation — two category
sub-lines and the memo prefixed with "Added to " — is submitted iff
`create_expense` returned a result and no error; on failure no ledger mutation
occurs. -/
theorem reverse_mirror_atomicity (env : ReverseEnv) (t : YnabTxn)
    (h1 : pyTruthyOptStr t.memo = true)
    (h2 : containsSub "splitwise".toList (lowerStr (t.memo.getD "")).toList = true)
    (h3 : containsSub "added to splitwise".toList (lowerStr (t.memo.getD "")).toList = false) :
    (processReverseTxn env t).1 =
      some (update_splitwise env t (reverseFriends (t.memo.getD ""))) ∧
    (processReverseTxn env t).2 =
      (if (env.createExpenseResult (update_splitwise env t (reverseFriends (t.memo.getD "")))).1.isSome
          && (env.createExpenseResult (update_splitwise env t (reverseFriends (t.memo.getD "")))).2.isNone
       then some (update_ynab env.splitwise_category_id t (reverseFriends (t.memo.getD "")))
       else none) ∧
    (update_ynab env.splitwise_category_id t (reverseFriends (t.memo.getD ""))).subtransactions.length = 2 ∧
    (update_ynab env.splitwise_category_id t (reverseFriends (t.memo.getD ""))).memo =
      some ("Added to " ++ t.memo.getD "") := by
  have hcond : (containsSub "splitwise".toList (lowerStr (t.memo.getD "")).toList
      && !containsSub "added to splitwise".toList (lowerStr (t.memo.getD "")).toList) = true := by
    rw [h2, h3]
    rfl
  unfold processReverseTxn
  rw [h1]
  simp only [Bool.not_true, Bool.false_eq_true, if_false]
  rw [hcond]
  simp only [eq_self_iff_true, if_true]
  by_cases hc : ((env.createExpenseResult (update_splitwise env t (reverseFriends (t.memo.getD "")))).1.isSome
      && (env.createExpenseResult (update_splitwise env t (reverseFriends (t.memo.getD "")))).2.isNone) = true
  · rw [hc]
    simp only [eq_self_iff_true, if_true]
    refine ⟨?_, ?_, ?_, ?_⟩ <;> trivial
  · rw [Bool.not_eq_true] at hc
    rw [hc]
    simp only [Bool.false_eq_true, if_false]
    refine ⟨?_, ?_, ?_, ?_⟩ <;> trivial

/-- Witness for C8 at a concrete transaction and a successful creation. -/
theorem reverse_mirror_atomicity_witness :
    (processReverseTxn fxReverseEnv fxReverseTxn).1 =
      some (update_splitwise fxReverseEnv fxReverseTxn
        (reverseFriends (fxReverseTxn.memo.getD ""))) ∧
    (processReverseTxn fxReverseEnv fxReverseTxn).2 =
      (if (fxReverseEnv.createExpenseResult (update_splitwise fxReverseEnv fxReverseTxn
              (reverseFriends (fxReverseTxn.memo.getD "")))).1.isSome
          && (fxReverseEnv.createExpenseResult (update_splitwise fxReverseEnv fxReverseTxn
              (reverseFriends (fxReverseTxn.memo.getD "")))).2.isNone
       then some (update_ynab fxReverseEnv.splitwise_category_id fxReverseTxn
              (reverseFriends (fxReverseTxn.memo.getD "")))
       else none) ∧
    (update_ynab fxReverseEnv.splitwise_category_id fxReverseTxn
        (reverseFriends (fxReverseTxn.memo.getD ""))).subtransactions.length = 2 ∧
    (update_ynab fxReverseEnv.splitwise_category_id fxReverseTxn
        (reverseFriends (fxReverseTxn.memo.getD ""))).memo =
      some ("Added to " ++ fxReverseTxn.memo.getD "") :=
  reverse_mirror_atomicity fxReverseEnv fxReverseTxn (by decide) (by decide) (by decide)

/-- Witness for C1 at a concrete id, timestamp, and tagless memo. -/
theorem tag_codec_roundtrip_witness :
    extract_swid_from_memo (construct_memo_swid_tag 42 "2025-06-01T10:00:00Z") =
      (some (construct_memo_swid_tag 42 "2025-06-01T10:00:00Z"), some 42,
       some (generate_truncated_hash_for_updated_time "2025-06-01T10:00:00Z")) ∧
    extract_swid_from_memo "hello" = (none, none, none) :=
  ⟨tag_codec_roundtrip.1 42 "2025-06-01T10:00:00Z" (by decide),
   tag_codec_roundtrip.2 "hello" (by
     rintro ⟨pre, ds, ws, post, heq, hds, -, hws, -⟩
     have hlen := congrArg List.length heq
     have h5 : ("hello".toList).length = 5 := rfl
     rw [h5] at hlen
     simp [swidMarker] at hlen
     have hd := List.length_pos.2 hds
     have hw := List.length_pos.2 hws
     omega)⟩

/-! ## C4: deleted-record handling in the forward loop -/

/-- C4.  A deleted expense: when its parsed source id is in the dedup map and
the mapped transaction's own tag carries the same id, exactly one delete call
is issued against that transaction's ledger id; when the id does not parse or
is absent from the map, nothing happens and no error is raised; in every
non-raising case no create/update/scheduled payload is built and the map is
untouched. -/
theorem deleted_record_handling (env : PassEnv) (st : PassState) (e : SwExpense)
    (hdel : pyTruthyOptStr e.deleted_time = true) :
    (∀ (k : Nat) (txn : YnabTxn) (tmemo : String) (tid : String),
        (extract_swid_from_memo e.swid).2.1 = some k →
        alistGet st.swid_map k = some txn →
        txn.memo = some tmemo →
        (extract_swid_from_memo tmemo).2.1 = some k →
        txn.id = some tid →
        processExpense env st e = .ok { st with deletes := st.deletes ++ [tid] }) ∧
    ((extract_swid_from_memo e.swid).2.1 = none →
        processExpense env st e = .ok st) ∧
    (∀ k : Nat, (extract_swid_from_memo e.swid).2.1 = some k →
        alistGet st.swid_map k = none →
        processExpense env st e = .ok st) ∧
    (∀ st' : PassState, processExpense env st e = .ok st' →
        st'.ynab_transactions = st.ynab_transactions ∧
        st'.scheduled_transactions = st.scheduled_transactions ∧
        st'.updated_transactions = st.updated_transactions ∧
        st'.swid_map = st.swid_map) := by
  have hred : processExpense env st e =
      (match (extract_swid_from_memo e.swid).2.1 with
       | some k =>
          match alistGet st.swid_map k with
          | some txn =>
              match txn.memo with
              | none => .error "KeyError: memo"
              | some tmemo =>
                if (extract_swid_from_memo tmemo).2.1 = some k then
                  match txn.id with
                  | some tid => .ok { st with deletes := st.deletes ++ [tid] }
                  | none => .error "KeyError: id"
                else .ok st
          | none => .ok st
       | none => .ok st) := by
    unfold processExpense
    rw [hdel]
    simp only [eq_self_iff_true, if_true]
  refine ⟨?_, ?_, ?_, ?_⟩
  · intro k txn tmemo tid h1 h2 h3 h4 h5
    rw [hred]
    simp only [h1, h2, h3, h4, h5, eq_self_iff_true, if_true]
  · intro h1
    rw [hred]
    simp only [h1]
  · intro k h1 h2
    rw [hred]
    simp only [h1, h2]
  · intro st' hok
    rw [hred] at hok
    cases h1 : (extract_swid_from_memo e.swid).2.1 with
    | none =>
        simp only [h1] at hok
        obtain rfl : st = st' := by simpa using hok
        exact ⟨rfl, rfl, rfl, rfl⟩
    | some k =>
        simp only [h1] at hok
        cases h2 : alistGet st.swid_map k with
        | none =>
            simp only [h2] at hok
            obtain rfl : st = st' := by simpa using hok
            exact ⟨rfl, rfl, rfl, rfl⟩
        | some txn =>
            simp only [h2] at hok
            cases h3 : txn.memo with
            | none =>
                simp only [h3] at hok
                exact absurd hok (by simp)
            | some tmemo =>
                simp only [h3] at hok
                by_cases h4 : (extract_swid_from_memo tmemo).2.1 = some k
                · rw [if_pos h4] at hok
                  cases h5 : txn.id with
                  | none =>
                      simp only [h5] at hok
                      exact absurd hok (by simp)
                  | some tid =>
                      simp only [h5] at hok
                      obtain rfl : { st with deletes := st.deletes ++ [tid] } = st' := by
                        simpa using hok
                      exact ⟨rfl, rfl, rfl, rfl⟩
                · rw [if_neg h4] at hok
                  obtain rfl : st = st' := by simpa using hok
                  exact ⟨rfl, rfl, rfl, rfl⟩

/-- Witness for C4: the mapped source id 9 is deleted with exactly one delete
call; with an empty map the same expense is a no-op. -/
theorem deleted_record_handling_witness :
    processExpense fxPassEnv fxPassStateWithNine cxDeletedExpense =
      .ok { fxPassStateWithNine with deletes := fxPassStateWithNine.deletes ++ ["y9"] } ∧
    processExpense fxPassEnv fxPassStateEmpty cxDeletedExpense = .ok fxPassStateEmpty :=
  ⟨(deleted_record_handling fxPassEnv fxPassStateWithNine cxDeletedExpense (by decide)).1
      9 fxMappedTxn ("gone " ++ construct_memo_swid_tag 9 "2025-06-01T10:00:00Z") "y9"
      (by decide) (by decide) (by decide) (by decide) (by decide),
   (deleted_record_handling fxPassEnv fxPassStateEmpty cxDeletedExpense (by decide)).2.2.1
      9 (by decide) (by decide)⟩

/-! ## C6: future-dated routing -/

theorem buildAndRoute_future (env : PassEnv) (st : PassState) (e : SwExpense)
    (tid : Option String) (dateStr : String) (d : PyDateTime)
    (hdate : e.date = some dateStr) (hparse : strptimeExpense dateStr = some d)
    (hfut : env.now.toNatKey < d.toNatKey) :
    ∃ txn : YnabTxn,
      buildAndRoute env st e tid = .ok { st with
        scheduled_transactions := st.scheduled_transactions ++ [txn],
        swid_map := _add_transaction_to_swid_map st.swid_map txn,
        hashCounter := st.hashCounter + 1 } ∧
      txn.cleared = some "uncleared" ∧ txn.id = none ∧
      txn.import_id =
        create_import_id txn.amount (strftimeYMD d) (some (env.importHash st.hashCounter)) := by
  unfold buildAndRoute
  rw [hdate]
  dsimp only
  rw [hparse]
  dsimp only [exceptOfOption, Option.elim]
  rw [if_pos hfut]
  refine ⟨_, rfl, rfl, ?_, rfl⟩
  by_cases h1 : e.swid ≠ "" <;> by_cases h2 : e.current_user_paid = true <;>
    simp [h1, h2]

/-- C6 (amended).  A new, future-dated expense is routed to the scheduled batch
only (not to the bulk-create or update batches), its payload has cleared-state
forced to "uncleared" and no ledger id, and it carries an import-dedup id
assigned exactly like any other payload (the claim's "no import-dedup id" is
wrong); at submission each scheduled item becomes an individual call whose
payload drops the cleared key and sets recurrence frequency "never". -/
theorem future_dated_routing (env : PassEnv) (st : PassState) (e : SwExpense)
    (dateStr : String) (d : PyDateTime)
    (hdel : pyTruthyOptStr e.deleted_time = false)
    (hnew : (extract_swid_from_memo e.swid).2.1 = none ∨
      (∃ k, (extract_swid_from_memo e.swid).2.1 = some k ∧ alistGet st.swid_map k = none))
    (hdate : e.date = some dateStr) (hparse : strptimeExpense dateStr = some d)
    (hfut : env.now.toNatKey < d.toNatKey) :
    (∃ txn : YnabTxn,
      processExpense env st e = .ok { st with
        scheduled_transactions := st.scheduled_transactions ++ [txn],
        swid_map := _add_transaction_to_swid_map st.swid_map txn,
        hashCounter := st.hashCounter + 1 } ∧
      txn.cleared = some "uncleared" ∧ txn.id = none ∧
      txn.import_id =
        create_import_id txn.amount (strftimeYMD d) (some (env.importHash st.hashCounter))) ∧
    (∀ ts : List YnabTxn, writeCallList [] [] ts =
      ts.map (fun t => WriteCall.schedCreate { t with cleared := none, frequency := some "never" })) := by
  have key : processExpense env st e = buildAndRoute env st e none := by
    unfold processExpense
    rw [hdel]
    simp only [Bool.false_eq_true, if_false]
    by_cases hs : e.swid = ""
    · rw [if_neg (by simpa using hs)]
    · rw [if_pos hs]
      rcases hnew with hn | ⟨k, hk, hget⟩
      · simp only [hn]
      · simp only [hk, hget]
  constructor
  · obtain ⟨txn, hmain, hcl, hid, him⟩ :=
      buildAndRoute_future env st e none dateStr d hdate hparse hfut
    exact ⟨txn, key.trans hmain, hcl, hid, him⟩
  · intro ts
    simp [writeCallList, scheduledPayload]

/-- Counterexample to C6 as stated: a concrete new future-dated expense whose
scheduled payload DOES carry an import-dedup id. -/
theorem future_dated_counterexample :
    ((processExpense fxFutureEnv fxPassStateEmpty cxFutureExpense).toOption.map
        (fun st => st.scheduled_transactions.map (·.import_id))) =
      some [some "YNAB:5000:2025-08-01:bbbbbbbb"] ∧
    ((processExpense fxFutureEnv fxPassStateEmpty cxFutureExpense).toOption.map
        (fun st => st.scheduled_transactions.map (·.cleared))) =
      some [some "uncleared"] ∧
    ((processExpense fxFutureEnv fxPassStateEmpty cxFutureExpense).toOption.map
        (fun st => (st.ynab_transactions.length, st.updated_transactions.length))) =
      some (0, 0) := by decide

/-- Witness for C6 at the concrete future-dated expense. -/
theorem future_dated_routing_witness :
    (∃ txn : YnabTxn,
      processExpense fxFutureEnv fxPassStateEmpty cxFutureExpense =
        .ok { fxPassStateEmpty with
          scheduled_transactions := fxPassStateEmpty.scheduled_transactions ++ [txn],
          swid_map := _add_transaction_to_swid_map fxPassStateEmpty.swid_map txn,
          hashCounter := fxPassStateEmpty.hashCounter + 1 } ∧
      txn.cleared = some "uncleared" ∧ txn.id = none ∧
      txn.import_id = create_import_id txn.amount (strftimeYMD ⟨2025, 8, 1, 10, 0, 0⟩)
        (some (fxFutureEnv.importHash fxPassStateEmpty.hashCounter))) ∧
    (∀ ts : List YnabTxn, writeCallList [] [] ts =
      ts.map (fun t => WriteCall.schedCreate { t with cleared := none, frequency := some "never" })) :=
  future_dated_routing fxFutureEnv fxPassStateEmpty cxFutureExpense
    "2025-08-01T10:00:00Z" ⟨2025, 8, 1, 10, 0, 0⟩ (by decide)
    (Or.inr ⟨9, by decide, by decide⟩) (by decide) (by decide) (by decide)

/-! ## C9: write-failure containment -/

theorem attemptCalls_all_ok {fails : WriteCall → Bool} :
    ∀ calls : List WriteCall, (∀ c ∈ calls, fails c = false) →
      attemptCalls fails calls = (calls, false)
  | [], _ => rfl
  | c :: rest, h => by
      have hc : fails c = false := h c (by simp)
      simp [attemptCalls, hc,
        attemptCalls_all_ok rest (fun x hx => h x (by simp [hx]))]

theorem attemptCalls_first_fail {fails : WriteCall → Bool} :
    ∀ (pre : List WriteCall) (c : WriteCall) (post : List WriteCall),
      (∀ x ∈ pre, fails x = false) → fails c = true →
      attemptCalls fails (pre ++ c :: post) = (pre ++ [c], true)
  | [], c, post, _, hc => by simp [attemptCalls, hc]
  | x :: pre, c, post, h, hc => by
      have hx : fails x = false := h x (by simp)
      simp [attemptCalls, hx,
        attemptCalls_first_fail pre c post (fun y hy => h y (by simp [hy])) hc]

theorem except_bind_ok {α β : Type} {x : Except String α} {f : α → Except String β} {r : β}
    (h : (x >>= f) = .ok r) : ∃ a, x = .ok a ∧ f a = .ok r := by
  cases x with
  | error e => simp [Bind.bind, Except.bind] at h
  | ok a => exact ⟨a, rfl, by simpa [Bind.bind, Except.bind] using h⟩

/-- C9.  If a write call in the submission phase raises, the calls after it are
not attempted (the attempted list is the failed call's prefix plus itself), the
whole immediate-create batch is logged, and the pass returns 1 without
re-raising; when every call succeeds all calls are attempted and the phase
returns 0; a whole pass whose write calls all succeed returns 0. -/
theorem write_failure_containment :
    (∀ (fails : WriteCall → Bool) (creates updates scheduled : List YnabTxn)
        (pre post : List WriteCall) (c : WriteCall),
        writeCallList creates updates scheduled = pre ++ c :: post →
        (∀ x ∈ pre, fails x = false) → fails c = true →
        submitPhase fails creates updates scheduled = (pre ++ [c], creates, 1)) ∧
    (∀ (fails : WriteCall → Bool) (creates updates scheduled : List YnabTxn),
        (∀ c ∈ writeCallList creates updates scheduled, fails c = false) →
        submitPhase fails creates updates scheduled =
          (writeCallList creates updates scheduled, [], 0)) ∧
    (∀ env : SwToYnabEnv, (∀ c, env.fails c = false) →
        ∀ r : SwToYnabResult, sw_to_ynab env = .ok r → r.ret = 0) := by
  refine ⟨?_, ?_, ?_⟩
  · intro fails creates updates scheduled pre post c hsplit hpre hc
    unfold submitPhase
    rw [hsplit, attemptCalls_first_fail pre c post hpre hc]
    rfl
  · intro fails creates updates scheduled h
    unfold submitPhase
    rw [attemptCalls_all_ok _ h]
    rfl
  · intro env hnf r hok
    unfold sw_to_ynab at hok
    by_cases h1 : env.expenses = []
    · rw [if_pos h1] at hok
      obtain rfl := Except.ok.inj hok
      rfl
    · rw [if_neg h1] at hok
      cases hc : collapseExpenses env.expenses with
      | error msg => rw [hc] at hok; exact absurd hok (by simp)
      | ok valid =>
        rw [hc] at hok
        dsimp only at hok
        by_cases h2 : valid = []
        · rw [if_pos h2] at hok
          obtain rfl := Except.ok.inj hok
          rfl
        · rw [if_neg h2] at hok
          cases hm : valid.mapM
              (fun e => exceptOfOption (strptimeExpense (e.date.getD "")) "ValueError") with
          | error msg => rw [hm] at hok; exact absurd hok (by simp)
          | ok dates =>
            rw [hm] at hok
            dsimp only at hok
            cases hf : valid.foldlM
                (processExpense ⟨env.ynab_account_id, env.now, env.importHash⟩)
                { swid_map := env.ynab_swid_map } with
            | error msg => rw [hf] at hok; exact absurd hok (by simp)
            | ok st =>
              rw [hf] at hok
              dsimp only at hok
              by_cases h3 : st.ynab_transactions = [] ∧ st.scheduled_transactions = []
                  ∧ st.updated_transactions = []
              · rw [if_pos h3] at hok
                obtain rfl := Except.ok.inj hok
                rfl
              · rw [if_neg h3] at hok
                rw [show submitPhase env.fails st.ynab_transactions st.updated_transactions
                      st.scheduled_transactions =
                    (writeCallList st.ynab_transactions st.updated_transactions
                      st.scheduled_transactions, [], 0) by
                  unfold submitPhase
                  rw [attemptCalls_all_ok _ (fun c _ => hnf c)]
                  rfl] at hok
                obtain rfl := Except.ok.inj hok
                rfl

/-- Witness for C9: a failing bulk create aborts before the scheduled call and
returns 1 with the create batch logged; the same batches under a never-failing
oracle attempt everything and return 0; the two-revision pass returns 0. -/
theorem write_failure_containment_witness :
    submitPhase fxFailCreateOracle [fxSubmitTxnA] [] [fxSubmitTxnB] =
      ([WriteCall.bulkCreate [fxSubmitTxnA]], [fxSubmitTxnA], 1) ∧
    submitPhase (fun _ => false) [fxSubmitTxnA] [] [fxSubmitTxnB] =
      (writeCallList [fxSubmitTxnA] [] [fxSubmitTxnB], [], 0) ∧
    (0 : Nat) = 0 :=
  ⟨write_failure_containment.1 fxFailCreateOracle [fxSubmitTxnA] [] [fxSubmitTxnB]
      [] [WriteCall.schedCreate (scheduledPayload fxSubmitTxnB)] (WriteCall.bulkCreate [fxSubmitTxnA])
      (by decide) (by decide) (by decide),
   write_failure_containment.2.1 (fun _ => false) [fxSubmitTxnA] [] [fxSubmitTxnB]
      (fun _ _ => rfl),
   write_failure_containment.2.2 fxTwoRevisionEnv (fun _ => rfl)
      ⟨[], [WriteCall.bulkCreate [fxRev2Txn]], [], 0⟩ (by decide) ⟩

/-! ## C3: revision collapse -/

theorem alistGet_some_mem {κ α : Type} [DecidableEq κ] {m : List (κ × α)} {k : κ} {v : α}
    (h : alistGet m k = some v) : (k, v) ∈ m := by
  unfold alistGet at h
  cases hf : m.find? (fun p => p.1 = k) with
  | none => rw [hf] at h; exact absurd h (by simp)
  | some q =>
      rw [hf] at h
      have hq : q ∈ m := List.mem_of_find?_eq_some hf
      have hk : q.1 = k := by simpa using List.find?_some hf
      have hv : q.2 = v := by simpa using h
      rw [← hk, ← hv]
      exact hq

theorem alistGet_none_forall {κ α : Type} [DecidableEq κ] {m : List (κ × α)} {k : κ}
    (h : alistGet m k = none) : ∀ p ∈ m, p.1 ≠ k := by
  unfold alistGet at h
  cases hf : m.find? (fun p => p.1 = k) with
  | some q => rw [hf] at h; exact absurd h (by simp)
  | none =>
      intro p hp
      have := List.find?_eq_none.1 hf p hp
      simpa using this

theorem alistGet_none_any {κ α : Type} [DecidableEq κ] {m : List (κ × α)} {k : κ}
    (h : alistGet m k = none) : m.any (fun p => p.1 = k) = false := by
  rw [List.any_eq_false]
  intro p hp
  simpa using alistGet_none_forall h p hp

theorem alistInsert_of_absent {κ α : Type} [DecidableEq κ] {m : List (κ × α)} {k : κ} {v : α}
    (h : m.any (fun p => p.1 = k) = false) : alistInsert m k v = m ++ [(k, v)] := by
  unfold alistInsert
  rw [h]
  rfl

theorem alistInsert_fst_replace {κ α : Type} [DecidableEq κ] {m : List (κ × α)} {k : κ} {v : α}
    (h : m.any (fun p => p.1 = k) = true) :
    (alistInsert m k v).map Prod.fst = m.map Prod.fst := by
  unfold alistInsert
  rw [h]
  simp only [if_true, List.map_map]
  apply List.map_congr_left
  intro p hp
  by_cases hk : p.1 = k
  · simp [hk]
  · simp [hk]

theorem mem_alistInsert_elim {κ α : Type} [DecidableEq κ] {m : List (κ × α)} {k : κ} {v : α}
    {p : κ × α} (h : p ∈ alistInsert m k v) : p = (k, v) ∨ (p ∈ m ∧ p.1 ≠ k) := by
  unfold alistInsert at h
  by_cases hany : m.any (fun q => q.1 = k) = true
  · rw [if_pos hany] at h
    rw [List.mem_map] at h
    obtain ⟨q, hq, hqe⟩ := h
    by_cases hk : q.1 = k
    · left; rw [← hqe]; simp [hk]
    · right
      rw [← hqe]
      simp only [hk, if_false]
      exact ⟨hq, hk⟩
  · rw [if_neg hany] at h
    rcases List.mem_append.1 h with h1 | h2
    · right
      refine ⟨h1, ?_⟩
      have hany' : m.any (fun q => q.1 = k) = false := by
        rw [Bool.not_eq_true] at hany
        exact hany
      rw [List.any_eq_false] at hany'
      have := hany' p h1
      simpa using this
    · left; simpa using h2

theorem alistInsert_covers {κ α : Type} [DecidableEq κ] {m : List (κ × α)} {k : κ} {v : α} :
    ∀ p ∈ m, ∃ q ∈ alistInsert m k v, q.1 = p.1 := by
  intro p hp
  unfold alistInsert
  by_cases hany : m.any (fun q => q.1 = k) = true
  · rw [if_pos hany]
    by_cases hk : p.1 = k
    · exact ⟨(k, v), List.mem_map.2 ⟨p, hp, by simp [hk]⟩, hk.symm⟩
    · exact ⟨p, List.mem_map.2 ⟨p, hp, by simp [hk]⟩, rfl⟩
  · rw [if_neg hany]
    exact ⟨p, List.mem_append.2 (Or.inl hp), rfl⟩

theorem alistInsert_mem_self {κ α : Type} [DecidableEq κ] {m : List (κ × α)} {k : κ} {v : α} :
    (k, v) ∈ alistInsert m k v := by
  unfold alistInsert
  by_cases hany : m.any (fun q => q.1 = k) = true
  · rw [if_pos hany]
    rw [List.any_eq_true] at hany
    obtain ⟨q, hq, hqk⟩ := hany
    exact List.mem_map.2 ⟨q, hq, by simp [show q.1 = k by simpa using hqk]⟩
  · rw [if_neg hany]
    exact List.mem_append.2 (Or.inr (by simp))

theorem dateKeyD_eq {e : SwExpense} {d' : String} {pd : PyDateTime}
    (hdate : e.date = some d') (hparse : strptimeExpense d' = some pd) :
    dateKeyD e = pd.toNatKey := by
  unfold dateKeyD
  rw [hdate]
  simp [hparse]

theorem nodup_key_unique {κ α : Type} {m : List (κ × α)} (hnd : (m.map Prod.fst).Nodup)
    {k : κ} {a : α} (ha : (k, a) ∈ m) {p : κ × α} (hp : p ∈ m) (hk : p.1 = k) :
    p = (k, a) := by
  induction m with
  | nil => simp at ha
  | cons q m ih =>
      rw [List.map_cons, List.nodup_cons] at hnd
      rcases List.mem_cons.1 ha with rfl | ha'
      · rcases List.mem_cons.1 hp with rfl | hp'
        · rfl
        · exact absurd (List.mem_map.2 ⟨p, hp', hk⟩) hnd.1
      · rcases List.mem_cons.1 hp with rfl | hp'
        · have hin : k ∈ m.map Prod.fst := List.mem_map.2 ⟨(k, a), ha', rfl⟩
          rw [← hk] at hin
          exact absurd hin hnd.1
        · exact ih hnd.2 ha' hp'

theorem latest_count_aux :
    ∀ (lat : List (Option Nat × SwExpense)),
      (lat.map Prod.fst).Nodup →
      (∀ p ∈ lat, swidKey p.2 = p.1) →
      ∀ κ : Option Nat,
        ((lat.map Prod.snd).filter (fun e => e.swid != "" && (swidKey e == κ))).length ≤ 1 := by
  intro lat
  induction lat with
  | nil => intro _ _ κ; simp
  | cons p lat ih =>
      intro hnd hkeys κ
      rw [List.map_cons] at hnd
      have hnd' := List.nodup_cons.1 hnd
      have hkeys' : ∀ q ∈ lat, swidKey q.2 = q.1 := fun q hq => hkeys q (by simp [hq])
      rw [List.map_cons, List.filter_cons]
      by_cases hmatch : (p.2.swid != "" && (swidKey p.2 == κ)) = true
      · rw [if_pos hmatch]
        have hκ : p.1 = κ := by
          have h2 : (swidKey p.2 == κ) = true := by
            have hm := hmatch
            rw [Bool.and_eq_true] at hm
            exact hm.2
          rw [beq_iff_eq] at h2
          rw [← hkeys p (by simp), h2]
        have hrest : (lat.map Prod.snd).filter (fun e => e.swid != "" && (swidKey e == κ)) = [] := by
          rw [List.filter_eq_nil]
          intro e he habs
          rw [List.mem_map] at he
          obtain ⟨q, hq, rfl⟩ := he
          rw [Bool.and_eq_true] at habs
          have h2 := habs.2
          rw [beq_iff_eq] at h2
          have hq1 : q.1 = κ := by rw [← hkeys' q hq, h2]
          exact hnd'.1 (by rw [hκ, ← hq1]; exact List.mem_map.2 ⟨q, hq, rfl⟩)
        rw [hrest]
        simp
      · rw [if_neg hmatch]
        exact ih hnd'.2 hkeys' κ

theorem dateKeyD_of_parse {x : SwExpense} {pd : PyDateTime}
    (h : strptimeExpense (x.date.getD "") = some pd) : dateKeyD x = pd.toNatKey := by
  unfold dateKeyD
  rw [h]
  rfl

theorem collapseStep_inv
    (v : List SwExpense) (lat : List (Option Nat × SwExpense)) (done : List SwExpense)
    (e : SwExpense) (v1 : List SwExpense) (lat1 : List (Option Nat × SwExpense))
    (hstep : collapseStep (v, lat) e = .ok (v1, lat1))
    (hI1 : v = done.filter (fun x => x.date.isSome && x.swid == ""))
    (hI2 : (lat.map Prod.fst).Nodup)
    (hI3 : ∀ p ∈ lat, p.2 ∈ done ∧ p.2.date.isSome = true ∧ p.2.swid ≠ "" ∧
      swidKey p.2 = p.1 ∧
      (∀ x ∈ done, x.date.isSome = true → x.swid ≠ "" → swidKey x = p.1 →
        dateKeyD x ≤ dateKeyD p.2))
    (hI4 : ∀ x ∈ done, x.date.isSome = true → x.swid ≠ "" →
      ∃ p ∈ lat, p.1 = swidKey x) :
    v1 = (done ++ [e]).filter (fun x => x.date.isSome && x.swid == "") ∧
    (lat1.map Prod.fst).Nodup ∧
    (∀ p ∈ lat1, p.2 ∈ done ++ [e] ∧ p.2.date.isSome = true ∧ p.2.swid ≠ "" ∧
      swidKey p.2 = p.1 ∧
      (∀ x ∈ done ++ [e], x.date.isSome = true → x.swid ≠ "" → swidKey x = p.1 →
        dateKeyD x ≤ dateKeyD p.2)) ∧
    (∀ x ∈ done ++ [e], x.date.isSome = true → x.swid ≠ "" →
      ∃ p ∈ lat1, p.1 = swidKey x) := by
  unfold collapseStep at hstep
  cases hd : e.date with
  | none =>
      rw [hd] at hstep
      dsimp only at hstep
      have hpair := Except.ok.inj hstep
      obtain ⟨rfl, rfl⟩ : v = v1 ∧ lat = lat1 :=
        ⟨congrArg Prod.fst hpair, congrArg Prod.snd hpair⟩
      have hds : e.date.isSome = false := by rw [hd]; rfl
      refine ⟨?_, hI2, ?_, ?_⟩
      · rw [hI1, List.filter_append]
        simp [hds]
      · intro p hp
        obtain ⟨h1, h2, h3, h4, h5⟩ := hI3 p hp
        refine ⟨List.mem_append.2 (Or.inl h1), h2, h3, h4, ?_⟩
        intro x hx hxd hxs hxk
        rcases List.mem_append.1 hx with hx1 | hx2
        · exact h5 x hx1 hxd hxs hxk
        · obtain rfl : x = e := by simpa using hx2
          rw [hds] at hxd
          exact absurd hxd (by simp)
      · intro x hx hxd hxs
        rcases List.mem_append.1 hx with hx1 | hx2
        · exact hI4 x hx1 hxd hxs
        · obtain rfl : x = e := by simpa using hx2
          rw [hds] at hxd
          exact absurd hxd (by simp)
  | some d =>
      rw [hd] at hstep
      dsimp only at hstep
      have hed : e.date.isSome = true := by rw [hd]; rfl
      by_cases hsw : e.swid ≠ ""
      · rw [if_pos hsw] at hstep
        have hsweq : (e.swid == "") = false := by
          rw [beq_eq_false_iff_ne]
          exact hsw
        have hfilterE : v1 = v →
            v1 = (done ++ [e]).filter (fun x => x.date.isSome && x.swid == "") := by
          intro hv
          rw [hv, hI1, List.filter_append]
          simp [hsweq]
        cases hp : strptimeExpense d with
        | none =>
            rw [hp] at hstep
            simp [exceptOfOption] at hstep
        | some pd =>
            rw [hp] at hstep
            dsimp only [exceptOfOption, Option.elim] at hstep
            have hkeyE : swidKey e = (extract_swid_from_memo e.swid).2.1 := rfl
            have hdkE : dateKeyD e = pd.toNatKey := by
              apply dateKeyD_of_parse
              rw [hd]
              exact hp
            cases hget : alistGet lat (extract_swid_from_memo e.swid).2.1 with
            | some existing =>
                rw [hget] at hstep
                dsimp only at hstep
                have hmem : ((extract_swid_from_memo e.swid).2.1, existing) ∈ lat :=
                  alistGet_some_mem hget
                obtain ⟨hxd0, hxd1, hxd2, hxd3, hxd4⟩ := hI3 _ hmem
                cases hpe : strptimeExpense (existing.date.getD "") with
                | none =>
                    rw [hpe] at hstep
                    simp [exceptOfOption] at hstep
                | some ed =>
                    rw [hpe] at hstep
                    dsimp only [exceptOfOption, Option.elim] at hstep
                    have hdkX : dateKeyD existing = ed.toNatKey := dateKeyD_of_parse hpe
                    by_cases hlt : ed.toNatKey < pd.toNatKey
                    · rw [if_pos hlt] at hstep
                      have hpair := Except.ok.inj hstep
                      obtain ⟨rfl, rfl⟩ :
                          v = v1 ∧ alistInsert lat ((extract_swid_from_memo e.swid).2.1) e = lat1 :=
                        ⟨congrArg Prod.fst hpair, congrArg Prod.snd hpair⟩
                      have hany : lat.any (fun p => p.1 = (extract_swid_from_memo e.swid).2.1) = true :=
                        List.any_eq_true.2 ⟨_, hmem, by simp⟩
                      refine ⟨hfilterE rfl, ?_, ?_, ?_⟩
                      · rw [alistInsert_fst_replace hany]
                        exact hI2
                      · intro p hp'
                        rcases mem_alistInsert_elim hp' with rfl | ⟨hpl, hpk⟩
                        · refine ⟨List.mem_append.2 (Or.inr (by simp)), hed, hsw, hkeyE, ?_⟩
                          intro x hx hxd hxs hxk
                          rcases List.mem_append.1 hx with hx1 | hx2
                          · have := hxd4 x hx1 hxd hxs hxk
                            rw [hdkX] at this
                            rw [hdkE]
                            omega
                          · obtain rfl : x = e := by simpa using hx2
                            exact le_rfl
                        · obtain ⟨h1, h2, h3, h4, h5⟩ := hI3 p hpl
                          refine ⟨List.mem_append.2 (Or.inl h1), h2, h3, h4, ?_⟩
                          intro x hx hxd hxs hxk
                          rcases List.mem_append.1 hx with hx1 | hx2
                          · exact h5 x hx1 hxd hxs hxk
                          · obtain rfl : x = e := by simpa using hx2
                            rw [hkeyE] at hxk
                            exact absurd hxk.symm hpk
                      · intro x hx hxd hxs
                        rcases List.mem_append.1 hx with hx1 | hx2
                        · obtain ⟨p, hpl, hpk⟩ := hI4 x hx1 hxd hxs
                          obtain ⟨q, hq, hq1⟩ := alistInsert_covers p hpl
                          exact ⟨q, hq, hq1.trans hpk⟩
                        · obtain rfl : x = e := by simpa using hx2
                          exact ⟨_, alistInsert_mem_self, hkeyE.symm⟩
                    · rw [if_neg hlt] at hstep
                      have hpair := Except.ok.inj hstep
                      obtain ⟨rfl, rfl⟩ : v = v1 ∧ lat = lat1 :=
                        ⟨congrArg Prod.fst hpair, congrArg Prod.snd hpair⟩
                      refine ⟨hfilterE rfl, hI2, ?_, ?_⟩
                      · intro p hp'
                        obtain ⟨h1, h2, h3, h4, h5⟩ := hI3 p hp'
                        refine ⟨List.mem_append.2 (Or.inl h1), h2, h3, h4, ?_⟩
                        intro x hx hxd hxs hxk
                        rcases List.mem_append.1 hx with hx1 | hx2
                        · exact h5 x hx1 hxd hxs hxk
                        · obtain rfl : x = e := by simpa using hx2
                          rw [hkeyE] at hxk
                          have hpeq := nodup_key_unique hI2 hmem hp' hxk.symm
                          rw [hpeq]
                          dsimp only
                          rw [hdkE, hdkX]
                          omega
                      · intro x hx hxd hxs
                        rcases List.mem_append.1 hx with hx1 | hx2
                        · exact hI4 x hx1 hxd hxs
                        · obtain rfl : x = e := by simpa using hx2
                          exact ⟨_, hmem, hkeyE.symm⟩
            | none =>
                rw [hget] at hstep
                dsimp only at hstep
                have hpair := Except.ok.inj hstep
                obtain ⟨rfl, rfl⟩ :
                    v = v1 ∧ alistInsert lat ((extract_swid_from_memo e.swid).2.1) e = lat1 :=
                  ⟨congrArg Prod.fst hpair, congrArg Prod.snd hpair⟩
                have hnok := alistGet_none_forall hget
                rw [alistInsert_of_absent (alistGet_none_any hget)]
                refine ⟨hfilterE rfl, ?_, ?_, ?_⟩
                · rw [List.map_append, List.nodup_append]
                  refine ⟨hI2, by simp, ?_⟩
                  intro y hy
                  rw [List.mem_map] at hy
                  obtain ⟨q, hq, rfl⟩ := hy
                  simpa using fun h => hnok q hq (by simpa using h)
                · intro p hp'
                  rcases List.mem_append.1 hp' with hpl | hpr
                  · obtain ⟨h1, h2, h3, h4, h5⟩ := hI3 p hpl
                    refine ⟨List.mem_append.2 (Or.inl h1), h2, h3, h4, ?_⟩
                    intro x hx hxd hxs hxk
                    rcases List.mem_append.1 hx with hx1 | hx2
                    · exact h5 x hx1 hxd hxs hxk
                    · obtain rfl : x = e := by simpa using hx2
                      rw [hkeyE] at hxk
                      exact absurd hxk.symm (hnok p hpl)
                  · obtain rfl : p = ((extract_swid_from_memo e.swid).2.1, e) := by simpa using hpr
                    refine ⟨List.mem_append.2 (Or.inr (by simp)), hed, hsw, hkeyE, ?_⟩
                    intro x hx hxd hxs hxk
                    rcases List.mem_append.1 hx with hx1 | hx2
                    · obtain ⟨q, hq, hq1⟩ := hI4 x hx1 hxd hxs
                      exact absurd (hq1.trans hxk) (hnok q hq)
                    · obtain rfl : x = e := by simpa using hx2
                      exact le_rfl
                · intro x hx hxd hxs
                  rcases List.mem_append.1 hx with hx1 | hx2
                  · obtain ⟨p, hpl, hpk⟩ := hI4 x hx1 hxd hxs
                    exact ⟨p, List.mem_append.2 (Or.inl hpl), hpk⟩
                  · obtain rfl : x = e := by simpa using hx2
                    exact ⟨_, List.mem_append.2 (Or.inr (List.mem_singleton.2 rfl)), hkeyE.symm⟩
      · rw [if_neg hsw] at hstep
        have hsw' : e.swid = "" := by simpa using hsw
        have hpair := Except.ok.inj hstep
        obtain ⟨rfl, rfl⟩ : v ++ [e] = v1 ∧ lat = lat1 :=
          ⟨congrArg Prod.fst hpair, congrArg Prod.snd hpair⟩
        refine ⟨?_, hI2, ?_, ?_⟩
        · rw [hI1, List.filter_append]
          simp [hed, hsw']
        · intro p hp'
          obtain ⟨h1, h2, h3, h4, h5⟩ := hI3 p hp'
          refine ⟨List.mem_append.2 (Or.inl h1), h2, h3, h4, ?_⟩
          intro x hx hxd hxs hxk
          rcases List.mem_append.1 hx with hx1 | hx2
          · exact h5 x hx1 hxd hxs hxk
          · obtain rfl : x = e := by simpa using hx2
            exact absurd hsw' hxs
        · intro x hx hxd hxs
          rcases List.mem_append.1 hx with hx1 | hx2
          · exact hI4 x hx1 hxd hxs
          · obtain rfl : x = e := by simpa using hx2
            exact absurd hsw' hxs

theorem collapse_fold_inv :
    ∀ (es : List SwExpense) (v : List SwExpense) (lat : List (Option Nat × SwExpense))
      (done : List SwExpense) (out : List SwExpense × List (Option Nat × SwExpense)),
      es.foldlM collapseStep (v, lat) = .ok out →
      v = done.filter (fun x => x.date.isSome && x.swid == "") →
      (lat.map Prod.fst).Nodup →
      (∀ p ∈ lat, p.2 ∈ done ∧ p.2.date.isSome = true ∧ p.2.swid ≠ "" ∧
        swidKey p.2 = p.1 ∧
        (∀ x ∈ done, x.date.isSome = true → x.swid ≠ "" → swidKey x = p.1 →
          dateKeyD x ≤ dateKeyD p.2)) →
      (∀ x ∈ done, x.date.isSome = true → x.swid ≠ "" →
        ∃ p ∈ lat, p.1 = swidKey x) →
      out.1 = (done ++ es).filter (fun x => x.date.isSome && x.swid == "") ∧
      (out.2.map Prod.fst).Nodup ∧
      (∀ p ∈ out.2, p.2 ∈ done ++ es ∧ p.2.date.isSome = true ∧ p.2.swid ≠ "" ∧
        swidKey p.2 = p.1 ∧
        (∀ x ∈ done ++ es, x.date.isSome = true → x.swid ≠ "" → swidKey x = p.1 →
          dateKeyD x ≤ dateKeyD p.2)) ∧
      (∀ x ∈ done ++ es, x.date.isSome = true → x.swid ≠ "" →
        ∃ p ∈ out.2, p.1 = swidKey x) := by
  intro es
  induction es with
  | nil =>
      intro v lat done out hfold h1 h2 h3 h4
      rw [List.foldlM_nil] at hfold
      obtain rfl : (v, lat) = out := by
        simpa [pure, Except.pure] using hfold
      simp only [List.append_nil]
      exact ⟨h1, h2, h3, h4⟩
  | cons e es ih =>
      intro v lat done out hfold h1 h2 h3 h4
      rw [List.foldlM_cons] at hfold
      cases hstep : collapseStep (v, lat) e with
      | error msg =>
          rw [hstep] at hfold
          simp [Bind.bind, Except.bind] at hfold
      | ok st1 =>
          rw [hstep] at hfold
          simp only [Bind.bind, Except.bind] at hfold
          obtain ⟨v1, lat1⟩ := st1
          obtain ⟨g1, g2, g3, g4⟩ := collapseStep_inv v lat done e v1 lat1 hstep h1 h2 h3 h4
          have hmain := ih v1 lat1 (done ++ [e]) out hfold g1 g2 g3 g4
          simpa [List.append_assoc] using hmain

/-- C3 counterexample.  Two fetched expenses share source id 777 and an equal
`date`, and the second-listed revision has the strictly later `updated_time`;
the collapse keeps the first-listed one.  The loop compares only the parsed
`date` fields and keeps the incumbent on ties, so `updated_time` never breaks
the tie — "latest updated_time/date" is not what survives. -/
theorem revision_collapse_counterexample :
    collapseExpenses [cxSameDateOldUpdate, cxSameDateNewUpdate] =
      .ok [cxSameDateOldUpdate] ∧
    cxSameDateOldUpdate.date = cxSameDateNewUpdate.date ∧
    swidKey cxSameDateOldUpdate = swidKey cxSameDateNewUpdate ∧
    swidKey cxSameDateOldUpdate = some 777 ∧
    cxSameDateOldUpdate.updated_time = "2025-06-01T10:00:00Z" ∧
    cxSameDateNewUpdate.updated_time = "2025-06-02T10:00:00Z" ∧
    cxSameDateOldUpdate ≠ cxSameDateNewUpdate := by
  decide

/-- C3 (corrected).  Revision collapse in `sw_to_ynab` (src/main.py lines
146–181): among dated expenses sharing the same parsed source id, at most one
survives the collapse, and the survivor has a maximal parsed `date` key among
them — not the latest `updated_time`, which the loop never consults (ties on
`date` keep the first-listed expense, see the counterexample).  Expenses
without a tag are never deduplicated: they all pass through, in order.
Undated expenses are dropped entirely.  Concretely, the two-revision batch
`fxTwoRevisionEnv` yields exactly one bulk-create of the later revision. -/
theorem revision_collapse_amended :
    (∀ (es res : List SwExpense), collapseExpenses es = .ok res →
      (res.filter (fun e => e.swid == "") =
        es.filter (fun e => e.date.isSome && e.swid == "")) ∧
      (∀ κ : Option Nat,
        (res.filter (fun e => e.swid != "" && (swidKey e == κ))).length ≤ 1) ∧
      (∀ e ∈ res, e.swid ≠ "" →
        e ∈ es ∧ e.date.isSome = true ∧
        (∀ x ∈ es, x.date.isSome = true → x.swid ≠ "" → swidKey x = swidKey e →
          dateKeyD x ≤ dateKeyD e)) ∧
      (∀ x ∈ es, x.date.isSome = true → x.swid ≠ "" →
        ∃ e ∈ res, e.swid ≠ "" ∧ swidKey e = swidKey x)) ∧
    sw_to_ynab fxTwoRevisionEnv =
      .ok ⟨[], [WriteCall.bulkCreate [fxRev2Txn]], [], 0⟩ := by
  constructor
  · intro es res hres
    unfold collapseExpenses at hres
    obtain ⟨st, hfold, hout⟩ := except_bind_ok hres
    obtain ⟨v, lat⟩ := st
    obtain rfl : v ++ lat.map (·.2) = res := Except.ok.inj hout
    obtain ⟨h1, h2, h3, h4⟩ :=
      collapse_fold_inv es [] [] [] (v, lat) hfold rfl (by simp) (by simp) (by simp)
    simp only [List.nil_append] at h1 h3 h4
    refine ⟨?_, ?_, ?_, ?_⟩
    · rw [List.filter_append]
      have hv : v.filter (fun e => e.swid == "") = v := by
        rw [List.filter_eq_self]
        intro a ha
        rw [h1] at ha
        have hm := (List.mem_filter.1 ha).2
        rw [Bool.and_eq_true] at hm
        exact hm.2
      have hlat : (lat.map (·.2)).filter (fun e => e.swid == "") = [] := by
        rw [List.filter_eq_nil_iff]
        intro a ha
        rw [List.mem_map] at ha
        obtain ⟨p, hp, rfl⟩ := ha
        simpa using (h3 p hp).2.2.1
      rw [hv, hlat, List.append_nil, h1]
    · intro κ
      rw [List.filter_append]
      have hv0 : v.filter (fun e => e.swid != "" && (swidKey e == κ)) = [] := by
        rw [List.filter_eq_nil_iff]
        intro a ha
        rw [h1] at ha
        have hm := (List.mem_filter.1 ha).2
        rw [Bool.and_eq_true] at hm
        have ha0 : a.swid = "" := by simpa using hm.2
        simp [ha0]
      rw [hv0, List.nil_append]
      exact latest_count_aux lat h2 (fun p hp => (h3 p hp).2.2.2.1) κ
    · intro e he hsw
      rcases List.mem_append.1 he with hv1 | hv2
      · rw [h1] at hv1
        have hm := (List.mem_filter.1 hv1).2
        rw [Bool.and_eq_true] at hm
        exact absurd (by simpa using hm.2) hsw
      · rw [List.mem_map] at hv2
        obtain ⟨p, hp, rfl⟩ := hv2
        obtain ⟨g1, g2, g3, g4, g5⟩ := h3 p hp
        refine ⟨g1, g2, ?_⟩
        intro x hx hxd hxs hxk
        exact g5 x hx hxd hxs (by rw [hxk, g4])
    · intro x hx hxd hxs
      obtain ⟨p, hp, hpk⟩ := h4 x hx hxd hxs
      obtain ⟨g1, g2, g3, g4, g5⟩ := h3 p hp
      exact ⟨p.2, List.mem_append.2 (Or.inr (List.mem_map.2 ⟨p, hp, rfl⟩)), g3,
        by rw [g4, hpk]⟩
  · decide
